import Mathlib

/-!
Verification development for the process-management core of a forking
network proxy (`src/src/nc_process.c`): the socket-migration algorithm
(`nc_migrate_proxies`), the listener-generation builder
(`nc_setup_listener_for_workers`), the worker spawner (`nc_spawn_workers`),
the shutdown sequencer (`nc_shutdown_workers`) and the master control loop
(`nc_multi_processes_cycle`).  C arrays become Lean lists, index loops
become structural recursion, pointers become `Option`-valued identifiers,
and the external collaborators (configuration loading, socket binding,
channel allocation, `fork`) become oracle environments.  Abnormal
termination of the C code (failed `ASSERT`, null-pointer dereference) is
made explicit with `Except Fault`.
-/

/-- Return status codes of `rstatus_t` (`NC_OK`, `NC_ERROR`, `NC_EAGAIN`,
`NC_ENOMEM`). -/
inductive Rstatus where
  | NC_OK
  | NC_ERROR
  | NC_EAGAIN
  | NC_ENOMEM
deriving Repr, DecidableEq

/-- Abnormal terminations of the modelled C code: a failed `ASSERT`
(as in `nc_migrate_proxies` lines 298-299 and `nc_spawn_workers` line 163),
or a write through a null pointer (`dst_pool->p_conn->owner` at line 322
when `p_conn` is `NULL`, `worker_nci->chan->fds[0]` at line 206 when
`chan` is `NULL`).

Modelled from the spec: the `ASSERT` macro itself is defined outside this
tree (`nc_core.h`); following the usual assert-enabled build it aborts the
process when its condition is false, which we render as
`Fault.assertFail`. -/
inductive Fault where
  | assertFail
  | nullDeref
deriving Repr, DecidableEq

/-- One `struct server_pool` as consumed by `nc_migrate_proxies`: the pool
name, the bind-address string `addrstr` (the identity key for migration,
compared by `string_compare`, i.e. exact string equality), and the owned
proxy connection `p_conn` (a numeric connection identifier; `none` models
a `NULL` pointer).  The connection object's `owner` back-pointer is kept
in a separate map, see `MigOut.owner`. -/
structure ServerPool where
  name : String
  addrstr : String
  p_conn : Option Nat
deriving Repr, DecidableEq

/-- Result of `nc_migrate_proxies` (`src/src/nc_process.c:287-328`): the
destination pool array, the source pool array, the map recording for each
connection id the index (into the destination pool array) of the pool its
`owner` field was pointed at by line 322 (most recent write first, looked
up with `List.lookup`), and the returned status. -/
structure MigOut where
  dst : List ServerPool
  src : List ServerPool
  owner : List (Nat × Nat)
  status : Rstatus
deriving Repr, DecidableEq

/-- Inner loop of `nc_migrate_proxies` (lines 306-325): one source pool
`sp` is matched against each destination pool in order; `j0` is the index
of the head of the remaining destination list within the full destination
array, and `ow` the owner map accumulated so far.  On a bind-address
match: a differing name is only logged (lines 312-315); a destination that
already owns a connection is logged and skipped (lines 316-319); otherwise
the connection reference moves (line 321), its owner back-reference is
written (line 322) - a write through `NULL` when the source connection is
`NULL`, modelled as `Fault.nullDeref` - and the source reference is
cleared (line 323). -/
def innerScan (sp : ServerPool) (j0 : Nat) (ow : List (Nat × Nat)) :
    List ServerPool → Except Fault (List ServerPool × ServerPool × List (Nat × Nat))
  | [] => .ok ([], sp, ow)
  | dp :: dps =>
    if dp.addrstr = sp.addrstr then
      if dp.p_conn.isSome then
        match innerScan sp (j0 + 1) ow dps with
        | .error f => .error f
        | .ok (dps', sp', ow') => .ok (dp :: dps', sp', ow')
      else
        match sp.p_conn with
        | none => .error .nullDeref
        | some c =>
          match innerScan { sp with p_conn := none } (j0 + 1) ((c, j0) :: ow) dps with
          | .error f => .error f
          | .ok (dps', sp', ow') => .ok ({ dp with p_conn := some c } :: dps', sp', ow')
    else
      match innerScan sp (j0 + 1) ow dps with
      | .error f => .error f
      | .ok (dps', sp', ow') => .ok (dp :: dps', sp', ow')

/-- Outer loop of `nc_migrate_proxies` (lines 301-326): the source pools
are processed in array order, each one scanned against the (current state
of the) destination pools by `innerScan`.  Returns the processed source
pools, the final destination pools and the final owner map. -/
def outerScan :
    List ServerPool → List ServerPool → List (Nat × Nat) →
      Except Fault (List ServerPool × List ServerPool × List (Nat × Nat))
  | [], dst, ow => .ok ([], dst, ow)
  | sp :: sps, dst, ow =>
    match innerScan sp 0 ow dst with
    | .error f => .error f
    | .ok (dst', sp', ow') =>
      match outerScan sps dst' ow' with
      | .error f => .error f
      | .ok (sps', dst'', ow'') => .ok (sp' :: sps', dst'', ow'')

/-- `nc_migrate_proxies(dst, src)` (`src/src/nc_process.c:287-328`), with
the owner map threaded explicitly.  Lines 298-299 assert that both pool
arrays are non-empty; the only `return` statement of the function yields
`NC_OK` (line 327). -/
def nc_migrate_proxies (dst src : List ServerPool) (ow : List (Nat × Nat)) :
    Except Fault MigOut :=
  if src.length = 0 then .error .assertFail
  else if dst.length = 0 then .error .assertFail
  else
    match outerScan src dst ow with
    | .error f => .error f
    | .ok (src', dst', ow') => .ok ⟨dst', src', ow', .NC_OK⟩

/-- What one pass of the inner loop preserves: lengths, the scanned source
pool's name and address, every destination pool's name and address, any
destination pool that does not match the source address or already owns a
connection, and the owner-map entries of connections other than the one
the source pool carries. -/
theorem innerScan_spec (dst : List ServerPool) :
    ∀ (sp : ServerPool) (j0 : Nat) (ow : List (Nat × Nat)) (dst' : List ServerPool)
      (sp' : ServerPool) (ow' : List (Nat × Nat)),
      innerScan sp j0 ow dst = .ok (dst', sp', ow') →
      dst'.length = dst.length ∧
        sp'.name = sp.name ∧
        sp'.addrstr = sp.addrstr ∧
        (sp'.p_conn = sp.p_conn ∨ sp'.p_conn = none) ∧
        (∀ (k : Nat) (dp : ServerPool), dst[k]? = some dp →
          ∃ dp', dst'[k]? = some dp' ∧ dp'.name = dp.name ∧ dp'.addrstr = dp.addrstr ∧
            ((dp.addrstr ≠ sp.addrstr ∨ dp.p_conn.isSome) → dp' = dp)) ∧
        (∀ c, sp.p_conn ≠ some c → List.lookup c ow' = List.lookup c ow) := by
  induction dst with
  | nil =>
    intro sp j0 ow dst' sp' ow' h
    simp only [innerScan, Except.ok.injEq, Prod.mk.injEq] at h
    obtain ⟨h1, h2, h3⟩ := h
    subst h1; subst h2; subst h3
    refine ⟨rfl, rfl, rfl, Or.inl rfl, ?_, fun c _ => rfl⟩
    intro k dp hk
    simp at hk
  | cons dp dps ih =>
    intro sp j0 ow dst' sp' ow' h
    simp only [innerScan] at h
    by_cases hm : dp.addrstr = sp.addrstr
    · rw [if_pos hm] at h
      by_cases hs : dp.p_conn.isSome
      · rw [if_pos hs] at h
        cases hr : innerScan sp (j0 + 1) ow dps with
        | error f => simp [hr] at h
        | ok trip =>
          obtain ⟨dps', sp₂, ow₂⟩ := trip
          simp only [hr, Except.ok.injEq, Prod.mk.injEq] at h
          obtain ⟨h1, h2, h3⟩ := h
          subst h1; subst h2; subst h3
          obtain ⟨L, N, A, P, F, O⟩ := ih sp (j0 + 1) ow dps' sp₂ ow₂ hr
          refine ⟨by simp [L], N, A, P, ?_, O⟩
          intro k dpk hk
          cases k with
          | zero =>
            obtain rfl : dp = dpk := by simpa using hk
            exact ⟨dp, by simp, rfl, rfl, fun _ => rfl⟩
          | succ k' =>
            obtain ⟨dp', hget, hn, ha, hcond⟩ := F k' dpk (by simpa using hk)
            exact ⟨dp', by simpa using hget, hn, ha, hcond⟩
      · rw [if_neg hs] at h
        cases hc : sp.p_conn with
        | none => simp [hc] at h
        | some c =>
          simp only [hc] at h
          cases hr : innerScan { sp with p_conn := none } (j0 + 1) ((c, j0) :: ow) dps with
          | error f => simp [hr] at h
          | ok trip =>
            obtain ⟨dps', sp₂, ow₂⟩ := trip
            simp only [hr, Except.ok.injEq, Prod.mk.injEq] at h
            obtain ⟨h1, h2, h3⟩ := h
            subst h1; subst h2; subst h3
            obtain ⟨L, N, A, P, F, O⟩ :=
              ih { sp with p_conn := none } (j0 + 1) ((c, j0) :: ow) dps' sp₂ ow₂ hr
            refine ⟨by simp [L], N, A, ?_, ?_, ?_⟩
            · rcases P with hP | hP
              · exact Or.inr (by simpa using hP)
              · exact Or.inr hP
            · intro k dpk hk
              cases k with
              | zero =>
                obtain rfl : dp = dpk := by simpa using hk
                refine ⟨{ dp with p_conn := some c }, by simp, rfl, rfl, ?_⟩
                intro hcond
                rcases hcond with hcond | hcond
                · exact absurd hm hcond
                · exact absurd hcond hs
              | succ k' =>
                obtain ⟨dp', hget, hn, ha, hcond⟩ := F k' dpk (by simpa using hk)
                exact ⟨dp', by simpa using hget, hn, ha, hcond⟩
            · intro c' hne
              have hcc : c ≠ c' := by
                intro hEq
                subst hEq
                exact hne rfl
              have step1 : List.lookup c' ow₂ = List.lookup c' ((c, j0) :: ow) :=
                O c' (by simp)
              have step2 : List.lookup c' ((c, j0) :: ow) = List.lookup c' ow := by
                simp [List.lookup, beq_eq_false_iff_ne.mpr (Ne.symm hcc)]
              rw [step1, step2]
    · rw [if_neg hm] at h
      cases hr : innerScan sp (j0 + 1) ow dps with
      | error f => simp [hr] at h
      | ok trip =>
        obtain ⟨dps', sp₂, ow₂⟩ := trip
        simp only [hr, Except.ok.injEq, Prod.mk.injEq] at h
        obtain ⟨h1, h2, h3⟩ := h
        subst h1; subst h2; subst h3
        obtain ⟨L, N, A, P, F, O⟩ := ih sp (j0 + 1) ow dps' sp₂ ow₂ hr
        refine ⟨by simp [L], N, A, P, ?_, O⟩
        intro k dpk hk
        cases k with
        | zero =>
          obtain rfl : dp = dpk := by simpa using hk
          exact ⟨dp, by simp, rfl, rfl, fun _ => rfl⟩
        | succ k' =>
          obtain ⟨dp', hget, hn, ha, hcond⟩ := F k' dpk (by simpa using hk)
          exact ⟨dp', by simpa using hget, hn, ha, hcond⟩

/-- If every destination pool whose address matches the scanned source pool
already owns a connection, the inner loop changes nothing. -/
theorem innerScan_skip_all (dst : List ServerPool) :
    ∀ (sp : ServerPool) (j0 : Nat) (ow : List (Nat × Nat)),
      (∀ (k : Nat) (dp : ServerPool), dst[k]? = some dp → dp.addrstr = sp.addrstr → dp.p_conn.isSome) →
      innerScan sp j0 ow dst = .ok (dst, sp, ow) := by
  induction dst with
  | nil => intro sp j0 ow _; rfl
  | cons dp dps ih =>
    intro sp j0 ow hall
    simp only [innerScan]
    by_cases hm : dp.addrstr = sp.addrstr
    · rw [if_pos hm, if_pos (hall 0 dp (by simp) hm)]
      rw [ih sp (j0 + 1) ow (fun k d hk he => hall (k + 1) d (by simpa using hk) he)]
    · rw [if_neg hm]
      rw [ih sp (j0 + 1) ow (fun k d hk he => hall (k + 1) d (by simpa using hk) he)]

/-- The inner loop on a source pool that carries a connection and matches
exactly one destination pool (at index `j`, currently unconnected):
the connection moves into that pool, the source reference is cleared, and
the owner map records the destination index. -/
theorem innerScan_hit (dst : List ServerPool) :
    ∀ (sp d : ServerPool) (c j j0 : Nat) (ow : List (Nat × Nat)),
      dst[j]? = some d → d.addrstr = sp.addrstr → d.p_conn = none → sp.p_conn = some c →
      (∀ (k : Nat) (dp : ServerPool), dst[k]? = some dp → k ≠ j → dp.addrstr ≠ sp.addrstr) →
      innerScan sp j0 ow dst =
        .ok (dst.set j { d with p_conn := some c }, { sp with p_conn := none },
          (c, j0 + j) :: ow) := by
  induction dst with
  | nil => intro sp d c j j0 ow hj; simp at hj
  | cons dp dps ih =>
    intro sp d c j j0 ow hj hm hd hc huniq
    cases j with
    | zero =>
      have hdp : dp = d := by simpa using hj
      subst hdp
      have hskip := innerScan_skip_all dps { sp with p_conn := none } (j0 + 1) ((c, j0) :: ow)
        (fun k dpk hk he => absurd (by simpa using he) (huniq (k + 1) dpk (by simpa using hk) (by omega)))
      simp only [innerScan]
      rw [if_pos hm, if_neg (by simp [hd]), hc]
      simp [hskip]
    | succ j' =>
      have hne : dp.addrstr ≠ sp.addrstr := huniq 0 dp (by simp) (by omega)
      simp only [innerScan]
      rw [if_neg hne]
      rw [ih sp d c j' (j0 + 1) ow (by simpa using hj) hm hd hc
        (fun k dpk hk hkj => huniq (k + 1) dpk (by simpa using hk) (by omega))]
      have harith : j0 + 1 + j' = j0 + (j' + 1) := by omega
      rw [harith]
      simp

/-- The outer loop never disturbs a destination pool that already owns a
connection: every later source pool that matches its address is skipped at
lines 316-319. -/
theorem outerScan_keep_dst (sps : List ServerPool) :
    ∀ (dst : List ServerPool) (ow : List (Nat × Nat)) (sps' dst' : List ServerPool)
      (ow' : List (Nat × Nat)) (j : Nat) (d : ServerPool),
      outerScan sps dst ow = .ok (sps', dst', ow') →
      dst[j]? = some d → d.p_conn.isSome →
      dst'[j]? = some d := by
  induction sps with
  | nil =>
    intro dst ow sps' dst' ow' j d h hj _
    simp only [outerScan, Except.ok.injEq, Prod.mk.injEq] at h
    obtain ⟨-, h2, -⟩ := h
    rw [← h2]
    exact hj
  | cons sp sps ih =>
    intro dst ow sps' dst' ow' j d h hj hsome
    simp only [outerScan] at h
    cases hr : innerScan sp 0 ow dst with
    | error f => simp [hr] at h
    | ok trip =>
      obtain ⟨dst₁, sp₁, ow₁⟩ := trip
      simp only [hr] at h
      cases ho : outerScan sps dst₁ ow₁ with
      | error f => simp [ho] at h
      | ok trip2 =>
        obtain ⟨sps₂, dst₂, ow₂⟩ := trip2
        simp only [ho, Except.ok.injEq, Prod.mk.injEq] at h
        obtain ⟨-, h2, -⟩ := h
        subst h2
        obtain ⟨-, -, -, -, F, -⟩ := innerScan_spec dst sp 0 ow dst₁ sp₁ ow₁ hr
        obtain ⟨d', hd', -, -, hcond⟩ := F j d hj
        rw [hcond (Or.inr hsome)] at hd'
        exact ih dst₁ ow₁ sps₂ dst₂ ow₂ j d ho hd' hsome

/-- The outer loop never adds an owner-map entry for a connection that no
remaining source pool carries. -/
theorem outerScan_keep_owner (sps : List ServerPool) :
    ∀ (dst : List ServerPool) (ow : List (Nat × Nat)) (sps' dst' : List ServerPool)
      (ow' : List (Nat × Nat)) (c : Nat),
      outerScan sps dst ow = .ok (sps', dst', ow') →
      (∀ p ∈ sps, p.p_conn ≠ some c) →
      List.lookup c ow' = List.lookup c ow := by
  induction sps with
  | nil =>
    intro dst ow sps' dst' ow' c h _
    simp only [outerScan, Except.ok.injEq, Prod.mk.injEq] at h
    obtain ⟨-, -, h3⟩ := h
    rw [← h3]
  | cons sp sps ih =>
    intro dst ow sps' dst' ow' c h hall
    simp only [outerScan] at h
    cases hr : innerScan sp 0 ow dst with
    | error f => simp [hr] at h
    | ok trip =>
      obtain ⟨dst₁, sp₁, ow₁⟩ := trip
      simp only [hr] at h
      cases ho : outerScan sps dst₁ ow₁ with
      | error f => simp [ho] at h
      | ok trip2 =>
        obtain ⟨sps₂, dst₂, ow₂⟩ := trip2
        simp only [ho, Except.ok.injEq, Prod.mk.injEq] at h
        obtain ⟨-, -, h3⟩ := h
        subst h3
        obtain ⟨-, -, -, -, -, O⟩ := innerScan_spec dst sp 0 ow dst₁ sp₁ ow₁ hr
        rw [ih dst₁ ow₁ sps₂ dst₂ ow₂ c ho (fun p hp => hall p (List.mem_cons_of_mem sp hp))]
        exact O c (hall sp (List.mem_cons_self sp sps))

/-- Main lemma for the migration postcondition: if source pool `s` (at
index `i`) is the only source pool with its address, carries connection
`c` exclusively, and destination pool `d` (at index `j`) is the only
destination pool with that address and is unconnected, then a completing
run of the outer loop moves `c` into `d`, clears `s`, and points the
owner back-reference of `c` at index `j`. -/
theorem outerScan_migrate_main (src : List ServerPool) :
    ∀ (dst : List ServerPool) (ow : List (Nat × Nat)) (i j : Nat) (s d : ServerPool) (c : Nat)
      (src' dst' : List ServerPool) (ow' : List (Nat × Nat)),
      src[i]? = some s → dst[j]? = some d →
      d.addrstr = s.addrstr → s.p_conn = some c → d.p_conn = none →
      (∀ (k : Nat) (p : ServerPool), src[k]? = some p → k ≠ i → p.addrstr ≠ s.addrstr) →
      (∀ (k : Nat) (p : ServerPool), dst[k]? = some p → k ≠ j → p.addrstr ≠ s.addrstr) →
      (∀ (k : Nat) (p : ServerPool), src[k]? = some p → k ≠ i → p.p_conn ≠ some c) →
      outerScan src dst ow = .ok (src', dst', ow') →
      dst'[j]? = some { d with p_conn := some c } ∧
        src'[i]? = some { s with p_conn := none } ∧
        List.lookup c ow' = some j := by
  induction src with
  | nil => intro dst ow i j s d c src' dst' ow' hi; simp at hi
  | cons sp sps ih =>
    intro dst ow i j s d c src' dst' ow' hi hj haddr hc hd hsu hdu hxc h
    simp only [outerScan] at h
    cases i with
    | zero =>
      obtain rfl : sp = s := by simpa using hi
      have hhit := innerScan_hit dst sp d c j 0 ow hj haddr hd hc
        (fun k dp hk hkj => hdu k dp hk hkj)
      rw [Nat.zero_add] at hhit
      rw [hhit] at h
      cases ho : outerScan sps (dst.set j { d with p_conn := some c }) ((c, j) :: ow) with
      | error f => simp [ho] at h
      | ok trip2 =>
        obtain ⟨sps₂, dst₂, ow₂⟩ := trip2
        simp only [ho, Except.ok.injEq, Prod.mk.injEq] at h
        obtain ⟨h1, h2, h3⟩ := h
        subst h1; subst h2; subst h3
        have hjlt : j < dst.length := (List.getElem?_eq_some_iff.mp hj).1
        have hset : (dst.set j { d with p_conn := some c })[j]? =
            some { d with p_conn := some c } := by
          rw [List.getElem?_set_self (by simpa using hjlt)]
        have hkeep := outerScan_keep_dst sps (dst.set j { d with p_conn := some c })
          ((c, j) :: ow) sps₂ dst₂ ow₂ j { d with p_conn := some c } ho hset (by simp)
        have hown := outerScan_keep_owner sps (dst.set j { d with p_conn := some c })
          ((c, j) :: ow) sps₂ dst₂ ow₂ c ho ?_
        · refine ⟨hkeep, by simp, ?_⟩
          rw [hown]
          simp [List.lookup]
        · intro p hp
          obtain ⟨k, hk⟩ := List.getElem?_of_mem hp
          exact hxc (k + 1) p (by simpa using hk) (by omega)
    | succ i' =>
      have hne0 : sp.addrstr ≠ s.addrstr := hsu 0 sp (by simp) (by omega)
      cases hr : innerScan sp 0 ow dst with
      | error f => simp [hr] at h
      | ok trip =>
        obtain ⟨dst₁, sp₁, ow₁⟩ := trip
        simp only [hr] at h
        cases ho : outerScan sps dst₁ ow₁ with
        | error f => simp [ho] at h
        | ok trip2 =>
          obtain ⟨sps₂, dst₂, ow₂⟩ := trip2
          simp only [ho, Except.ok.injEq, Prod.mk.injEq] at h
          obtain ⟨h1, h2, h3⟩ := h
          subst h1; subst h2; subst h3
          obtain ⟨L, -, -, -, F, -⟩ := innerScan_spec dst sp 0 ow dst₁ sp₁ ow₁ hr
          have hj₁ : dst₁[j]? = some d := by
            obtain ⟨d', hd', -, -, hcond⟩ := F j d hj
            rw [hcond (Or.inl (fun hEq => hne0 (hEq.symm.trans haddr)))] at hd'
            exact hd'
          have hdu₁ : ∀ (k : Nat) (p : ServerPool), dst₁[k]? = some p → k ≠ j →
              p.addrstr ≠ s.addrstr := by
            intro k p hk hkj
            have hklt : k < dst.length := by
              have := (List.getElem?_eq_some_iff.mp hk).1
              omega
            obtain ⟨dp0, hdp0⟩ : ∃ a, dst[k]? = some a := ⟨dst[k], List.getElem?_eq_getElem hklt⟩
            obtain ⟨dp', hdp', -, ha, -⟩ := F k dp0 hdp0
            have : p = dp' := by
              rw [hk] at hdp'
              exact Option.some.inj hdp'
            rw [this, ha]
            exact hdu k dp0 hdp0 hkj
          have := ih dst₁ ow₁ i' j s d c sps₂ dst₂ ow₂ (by simpa using hi) hj₁ haddr hc hd
            (fun k p hk hki => hsu (k + 1) p (by simpa using hk) (by omega))
            hdu₁
            (fun k p hk hki => hxc (k + 1) p (by simpa using hk) (by omega))
            ho
          obtain ⟨g1, g2, g3⟩ := this
          exact ⟨g1, by simpa using g2, g3⟩

-- Concrete names and addresses used by witnesses and counterexamples.
def addrA : String := "0.0.0.0:11211"
def addrB : String := "0.0.0.0:6379"
def nmP1 : String := "p1"
def nmP2 : String := "p2"
def nmQ1 : String := "q1"
def nmQ2 : String := "q2"

/-- C1 (amended): for a source pool `s` (index `i`) and destination pool
`d` (index `j`) with equal bind-address strings, where `d` initially owns
no connection, `s` is the only source pool with that address, `d` is the
only destination pool with that address, no other source pool aliases
`s`'s connection, and `nc_migrate_proxies` runs to completion, afterwards
`d` owns `s`'s former connection, that connection's owner back-reference
points at `d` (index `j`), `s`'s connection reference is null, and the
call returns `NC_OK`. -/
theorem migrate_moves_connection
    (dst src : List ServerPool) (ow : List (Nat × Nat)) (i j : Nat) (s d : ServerPool)
    (c : Nat) (out : MigOut)
    (hi : src[i]? = some s) (hj : dst[j]? = some d)
    (haddr : d.addrstr = s.addrstr) (hc : s.p_conn = some c) (hd : d.p_conn = none)
    (hsu : ∀ (k : Nat) (p : ServerPool), src[k]? = some p → k ≠ i → p.addrstr ≠ s.addrstr)
    (hdu : ∀ (k : Nat) (p : ServerPool), dst[k]? = some p → k ≠ j → p.addrstr ≠ s.addrstr)
    (hxc : ∀ (k : Nat) (p : ServerPool), src[k]? = some p → k ≠ i → p.p_conn ≠ some c)
    (hok : nc_migrate_proxies dst src ow = .ok out) :
    out.dst[j]? = some { d with p_conn := some c } ∧
      out.src[i]? = some { s with p_conn := none } ∧
      List.lookup c out.owner = some j ∧ out.status = .NC_OK := by
  have hilt : i < src.length := (List.getElem?_eq_some_iff.mp hi).1
  have hjlt : j < dst.length := (List.getElem?_eq_some_iff.mp hj).1
  unfold nc_migrate_proxies at hok
  rw [if_neg (by omega), if_neg (by omega)] at hok
  cases ho : outerScan src dst ow with
  | error f => simp [ho] at hok
  | ok trip =>
    obtain ⟨src₂, dst₂, ow₂⟩ := trip
    simp only [ho] at hok
    obtain ⟨g1, g2, g3⟩ :=
      outerScan_migrate_main src dst ow i j s d c src₂ dst₂ ow₂ hi hj haddr hc hd hsu hdu hxc ho
    cases hok
    exact ⟨g1, g2, g3, rfl⟩

/-- C1 witness: a one-pool reload carrying connection `5` across. -/
theorem migrate_moves_connection_witness :
    (MigOut.mk [⟨nmQ1, addrA, some 5⟩] [⟨nmP1, addrA, none⟩] [(5, 0)] .NC_OK).dst[0]? =
        some ⟨nmQ1, addrA, some 5⟩ ∧
      (MigOut.mk [⟨nmQ1, addrA, some 5⟩] [⟨nmP1, addrA, none⟩] [(5, 0)] .NC_OK).src[0]? =
        some ⟨nmP1, addrA, none⟩ ∧
      List.lookup 5 (MigOut.mk [⟨nmQ1, addrA, some 5⟩] [⟨nmP1, addrA, none⟩] [(5, 0)]
        .NC_OK).owner = some 0 ∧
      (MigOut.mk [⟨nmQ1, addrA, some 5⟩] [⟨nmP1, addrA, none⟩] [(5, 0)] .NC_OK).status =
        .NC_OK :=
  migrate_moves_connection [⟨nmQ1, addrA, none⟩] [⟨nmP1, addrA, some 5⟩] [] 0 0
    ⟨nmP1, addrA, some 5⟩ ⟨nmQ1, addrA, none⟩ 5
    (MigOut.mk [⟨nmQ1, addrA, some 5⟩] [⟨nmP1, addrA, none⟩] [(5, 0)] .NC_OK)
    rfl rfl rfl rfl rfl
    (by
      intro k p hk hne
      cases k with
      | zero => exact absurd rfl hne
      | succ k' => simp at hk)
    (by
      intro k p hk hne
      cases k with
      | zero => exact absurd rfl hne
      | succ k' => simp at hk)
    (by
      intro k p hk hne
      cases k with
      | zero => exact absurd rfl hne
      | succ k' => simp at hk)
    rfl

/-- C1 counterexample: two source pools `p1`, `p2` share one address and
both carry connections; the single destination pool `q1` has that address
and starts unconnected.  The pair (source index 1, destination index 0)
satisfies every hypothesis of the claim as stated, yet after the Migrator
completes the destination owns connection 1 (pool `p1`'s connection, not
`p2`'s connection 2), and `p2`'s connection reference is still `some 2`,
not null. -/
theorem migrate_moves_connection_cex :
    nc_migrate_proxies [⟨nmQ1, addrA, none⟩] [⟨nmP1, addrA, some 1⟩, ⟨nmP2, addrA, some 2⟩]
        [] = .ok ⟨[⟨nmQ1, addrA, some 1⟩], [⟨nmP1, addrA, none⟩, ⟨nmP2, addrA, some 2⟩],
          [(1, 0)], .NC_OK⟩ ∧
      ([⟨nmP1, addrA, some 1⟩, ⟨nmP2, addrA, some 2⟩] : List ServerPool)[1]? =
        some ⟨nmP2, addrA, some 2⟩ ∧
      (ServerPool.mk nmQ1 addrA none).addrstr = (ServerPool.mk nmP2 addrA (some 2)).addrstr ∧
      (ServerPool.mk nmQ1 addrA none).p_conn = none ∧
      ¬ ([⟨nmP1, addrA, none⟩, ⟨nmP2, addrA, some 2⟩] : List ServerPool)[1]? =
          some ⟨nmP2, addrA, none⟩ ∧
      ¬ ([⟨nmQ1, addrA, some 1⟩] : List ServerPool)[0]? = some ⟨nmQ1, addrA, some 2⟩ :=
  ⟨rfl, rfl, rfl, rfl, by simp [nmP2, addrA], by simp [nmQ1, addrA]⟩

/-- A source pool whose every address-matching destination pool already
owns a connection passes through the outer loop unchanged. -/
theorem outerScan_skip_elem (sps : List ServerPool) :
    ∀ (dst : List ServerPool) (ow : List (Nat × Nat)) (i : Nat) (s : ServerPool)
      (sps' dst' : List ServerPool) (ow' : List (Nat × Nat)),
      sps[i]? = some s →
      (∀ (k : Nat) (p : ServerPool), dst[k]? = some p → p.addrstr = s.addrstr →
        p.p_conn.isSome) →
      outerScan sps dst ow = .ok (sps', dst', ow') →
      sps'[i]? = some s := by
  induction sps with
  | nil => intro dst ow i s sps' dst' ow' hi; simp at hi
  | cons sp sps ih =>
    intro dst ow i s sps' dst' ow' hi hall h
    simp only [outerScan] at h
    cases i with
    | zero =>
      obtain rfl : sp = s := by simpa using hi
      rw [innerScan_skip_all dst sp 0 ow hall] at h
      cases ho : outerScan sps dst ow with
      | error f => simp [ho] at h
      | ok trip =>
        obtain ⟨sps₂, dst₂, ow₂⟩ := trip
        simp only [ho, Except.ok.injEq, Prod.mk.injEq] at h
        obtain ⟨h1, -, -⟩ := h
        rw [← h1]
        simp
    | succ i' =>
      cases hr : innerScan sp 0 ow dst with
      | error f => simp [hr] at h
      | ok trip =>
        obtain ⟨dst₁, sp₁, ow₁⟩ := trip
        simp only [hr] at h
        cases ho : outerScan sps dst₁ ow₁ with
        | error f => simp [ho] at h
        | ok trip2 =>
          obtain ⟨sps₂, dst₂, ow₂⟩ := trip2
          simp only [ho, Except.ok.injEq, Prod.mk.injEq] at h
          obtain ⟨h1, -, -⟩ := h
          obtain ⟨L, -, -, -, F, -⟩ := innerScan_spec dst sp 0 ow dst₁ sp₁ ow₁ hr
          have hall₁ : ∀ (k : Nat) (p : ServerPool), dst₁[k]? = some p →
              p.addrstr = s.addrstr → p.p_conn.isSome := by
            intro k p hk he
            have hklt : k < dst.length := by
              have := (List.getElem?_eq_some_iff.mp hk).1
              omega
            obtain ⟨dp0, hdp0⟩ : ∃ a, dst[k]? = some a := ⟨dst[k], List.getElem?_eq_getElem hklt⟩
            obtain ⟨dp', hdp', -, ha, hcond⟩ := F k dp0 hdp0
            have hpd : p = dp' := by
              rw [hk] at hdp'
              exact Option.some.inj hdp'
            have hsome0 : dp0.p_conn.isSome :=
              hall k dp0 hdp0 (by rw [← ha, ← hpd]; exact he)
            rw [hpd, hcond (Or.inr hsome0)]
            exact hsome0
          have := ih dst₁ ow₁ i' s sps₂ dst₂ ow₂ (by simpa using hi) hall₁ ho
          rw [← h1]
          simpa using this

/-- Main lemma for claim C4: among two source pools (indices `i₁ < i₂`)
that match the unique destination pool `d` of their shared address, only
the first transfers; the second is skipped with `d` already connected and
comes out of the loop completely untouched. -/
theorem outerScan_first_wins (src : List ServerPool) :
    ∀ (dst : List ServerPool) (ow : List (Nat × Nat)) (i₁ i₂ j : Nat)
      (s₁ s₂ d : ServerPool) (c₁ : Nat) (src' dst' : List ServerPool) (ow' : List (Nat × Nat)),
      src[i₁]? = some s₁ → src[i₂]? = some s₂ → i₁ < i₂ →
      dst[j]? = some d → d.addrstr = s₁.addrstr → s₂.addrstr = s₁.addrstr →
      s₁.p_conn = some c₁ → d.p_conn = none →
      (∀ (k : Nat) (p : ServerPool), src[k]? = some p → p.addrstr = s₁.addrstr →
        k = i₁ ∨ k = i₂) →
      (∀ (k : Nat) (p : ServerPool), dst[k]? = some p → k ≠ j → p.addrstr ≠ s₁.addrstr) →
      outerScan src dst ow = .ok (src', dst', ow') →
      dst'[j]? = some { d with p_conn := some c₁ } ∧
        src'[i₁]? = some { s₁ with p_conn := none } ∧
        src'[i₂]? = some s₂ := by
  induction src with
  | nil => intro dst ow i₁ i₂ j s₁ s₂ d c₁ src' dst' ow' hi₁; simp at hi₁
  | cons sp sps ih =>
    intro dst ow i₁ i₂ j s₁ s₂ d c₁ src' dst' ow' hi₁ hi₂ hlt hj haddr haddr2 hc hd hmatch hdu h
    simp only [outerScan] at h
    cases i₁ with
    | zero =>
      obtain rfl : sp = s₁ := by simpa using hi₁
      obtain ⟨i₂', rfl⟩ : ∃ m, i₂ = m + 1 := ⟨i₂ - 1, by omega⟩
      have hhit := innerScan_hit dst sp d c₁ j 0 ow hj haddr hd hc hdu
      rw [Nat.zero_add] at hhit
      rw [hhit] at h
      cases ho : outerScan sps (dst.set j { d with p_conn := some c₁ }) ((c₁, j) :: ow) with
      | error f => simp [ho] at h
      | ok trip =>
        obtain ⟨sps₂, dst₂, ow₂⟩ := trip
        simp only [ho, Except.ok.injEq, Prod.mk.injEq] at h
        obtain ⟨h1, h2, -⟩ := h
        subst h2
        have hjlt : j < dst.length := (List.getElem?_eq_some_iff.mp hj).1
        have hset : (dst.set j { d with p_conn := some c₁ })[j]? =
            some { d with p_conn := some c₁ } := by
          rw [List.getElem?_set_self (by simpa using hjlt)]
        have hkeep := outerScan_keep_dst sps (dst.set j { d with p_conn := some c₁ })
          ((c₁, j) :: ow) sps₂ dst₂ ow₂ j { d with p_conn := some c₁ } ho hset (by simp)
        have hall : ∀ (k : Nat) (p : ServerPool),
            (dst.set j { d with p_conn := some c₁ })[k]? = some p →
            p.addrstr = s₂.addrstr → p.p_conn.isSome := by
          intro k p hk he
          by_cases hkj : k = j
          · subst hkj
            rw [hset] at hk
            cases Option.some.inj hk
            simp
          · rw [List.getElem?_set_ne (fun hEq => hkj hEq.symm)] at hk
            exact absurd (he.trans haddr2) (hdu k p hk hkj)
        have hskip := outerScan_skip_elem sps (dst.set j { d with p_conn := some c₁ })
          ((c₁, j) :: ow) i₂' s₂ sps₂ dst₂ ow₂ (by simpa using hi₂) hall ho
        rw [← h1]
        exact ⟨hkeep, by simp, by simpa using hskip⟩
    | succ i₁' =>
      obtain ⟨i₂', rfl⟩ : ∃ m, i₂ = m + 1 := ⟨i₂ - 1, by omega⟩
      have hne0 : sp.addrstr ≠ s₁.addrstr := by
        intro hEq
        rcases hmatch 0 sp (by simp) hEq with h0 | h0 <;> omega
      cases hr : innerScan sp 0 ow dst with
      | error f => simp [hr] at h
      | ok trip =>
        obtain ⟨dst₁, sp₁, ow₁⟩ := trip
        simp only [hr] at h
        cases ho : outerScan sps dst₁ ow₁ with
        | error f => simp [ho] at h
        | ok trip2 =>
          obtain ⟨sps₂, dst₂, ow₂⟩ := trip2
          simp only [ho, Except.ok.injEq, Prod.mk.injEq] at h
          obtain ⟨h1, h2, -⟩ := h
          subst h2
          obtain ⟨L, -, -, -, F, -⟩ := innerScan_spec dst sp 0 ow dst₁ sp₁ ow₁ hr
          have hj₁ : dst₁[j]? = some d := by
            obtain ⟨d', hd', -, -, hcond⟩ := F j d hj
            rw [hcond (Or.inl (fun hEq => hne0 (hEq.symm.trans haddr)))] at hd'
            exact hd'
          have hdu₁ : ∀ (k : Nat) (p : ServerPool), dst₁[k]? = some p → k ≠ j →
              p.addrstr ≠ s₁.addrstr := by
            intro k p hk hkj
            have hklt : k < dst.length := by
              have := (List.getElem?_eq_some_iff.mp hk).1
              omega
            obtain ⟨dp0, hdp0⟩ : ∃ a, dst[k]? = some a := ⟨dst[k], List.getElem?_eq_getElem hklt⟩
            obtain ⟨dp', hdp', -, ha, -⟩ := F k dp0 hdp0
            have hpd : p = dp' := by
              rw [hk] at hdp'
              exact Option.some.inj hdp'
            rw [hpd, ha]
            exact hdu k dp0 hdp0 hkj
          have hmain := ih dst₁ ow₁ i₁' i₂' j s₁ s₂ d c₁ sps₂ dst₂ ow₂
            (by simpa using hi₁) (by simpa using hi₂) (by omega) hj₁ haddr haddr2 hc hd
            (fun k p hk he => by
              rcases hmatch (k + 1) p (by simpa using hk) he with hx | hx
              · exact Or.inl (by omega)
              · exact Or.inr (by omega))
            hdu₁ ho
          obtain ⟨g1, g2, g3⟩ := hmain
          rw [← h1]
          exact ⟨g1, by simpa using g2, by simpa using g3⟩

/-- C4: for a destination pool `d` (index `j`, initially unconnected, the
only destination with its address) matched by exactly the source pools at
indices `i₁ < i₂`, only the first source processed in source-array order
transfers its connection; the second pair is skipped (logged at lines
317-318) and that source pool is left completely untouched, its
connection still owned by the source. -/
theorem migrate_first_source_wins
    (dst src : List ServerPool) (ow : List (Nat × Nat)) (i₁ i₂ j : Nat)
    (s₁ s₂ d : ServerPool) (c₁ : Nat) (out : MigOut)
    (hi₁ : src[i₁]? = some s₁) (hi₂ : src[i₂]? = some s₂) (hlt : i₁ < i₂)
    (hj : dst[j]? = some d) (haddr : d.addrstr = s₁.addrstr)
    (haddr2 : s₂.addrstr = s₁.addrstr)
    (hc : s₁.p_conn = some c₁) (hd : d.p_conn = none)
    (hmatch : ∀ (k : Nat) (p : ServerPool), src[k]? = some p →
      p.addrstr = s₁.addrstr → k = i₁ ∨ k = i₂)
    (hdu : ∀ (k : Nat) (p : ServerPool), dst[k]? = some p → k ≠ j →
      p.addrstr ≠ s₁.addrstr)
    (hok : nc_migrate_proxies dst src ow = .ok out) :
    out.dst[j]? = some { d with p_conn := some c₁ } ∧
      out.src[i₁]? = some { s₁ with p_conn := none } ∧
      out.src[i₂]? = some s₂ := by
  have hilt : i₁ < src.length := (List.getElem?_eq_some_iff.mp hi₁).1
  have hjlt : j < dst.length := (List.getElem?_eq_some_iff.mp hj).1
  unfold nc_migrate_proxies at hok
  rw [if_neg (by omega), if_neg (by omega)] at hok
  cases ho : outerScan src dst ow with
  | error f => simp [ho] at hok
  | ok trip =>
    obtain ⟨src₂, dst₂, ow₂⟩ := trip
    simp only [ho] at hok
    obtain ⟨g1, g2, g3⟩ := outerScan_first_wins src dst ow i₁ i₂ j s₁ s₂ d c₁ src₂ dst₂ ow₂
      hi₁ hi₂ hlt hj haddr haddr2 hc hd hmatch hdu ho
    cases hok
    exact ⟨g1, g2, g3⟩

/-- C4 witness: two sources `p1`, `p2` on one address, one destination
`q1`; `p1` transfers connection 1, `p2` keeps connection 2. -/
theorem migrate_first_source_wins_witness :
    (MigOut.mk [⟨nmQ1, addrA, some 1⟩] [⟨nmP1, addrA, none⟩, ⟨nmP2, addrA, some 2⟩]
        [(1, 0)] .NC_OK).dst[0]? = some ⟨nmQ1, addrA, some 1⟩ ∧
      (MigOut.mk [⟨nmQ1, addrA, some 1⟩] [⟨nmP1, addrA, none⟩, ⟨nmP2, addrA, some 2⟩]
        [(1, 0)] .NC_OK).src[0]? = some ⟨nmP1, addrA, none⟩ ∧
      (MigOut.mk [⟨nmQ1, addrA, some 1⟩] [⟨nmP1, addrA, none⟩, ⟨nmP2, addrA, some 2⟩]
        [(1, 0)] .NC_OK).src[1]? = some ⟨nmP2, addrA, some 2⟩ :=
  migrate_first_source_wins [⟨nmQ1, addrA, none⟩]
    [⟨nmP1, addrA, some 1⟩, ⟨nmP2, addrA, some 2⟩] [] 0 1 0
    ⟨nmP1, addrA, some 1⟩ ⟨nmP2, addrA, some 2⟩ ⟨nmQ1, addrA, none⟩ 1
    (MigOut.mk [⟨nmQ1, addrA, some 1⟩] [⟨nmP1, addrA, none⟩, ⟨nmP2, addrA, some 2⟩]
      [(1, 0)] .NC_OK)
    rfl rfl (by omega) rfl rfl rfl rfl rfl
    (by
      intro k p hk he
      match k with
      | 0 => exact Or.inl rfl
      | 1 => exact Or.inr rfl
      | k + 2 => simp at hk)
    (by
      intro k p hk hne
      match k with
      | 0 => exact absurd rfl hne
      | k + 1 => simp at hk)
    rfl

/-- C3: the address-collision reload scenario from the spec (one live
source pool, two destination pools with the same address) does not
complete with a logged error; the code dereferences a null pointer.  After
the first destination pool receives the connection and the source
reference is cleared (line 323), the second destination pool also matches,
is still unconnected, copies the now-null source reference (line 321) and
writes through it (line 322). -/
theorem migrate_addr_collision_crash :
    nc_migrate_proxies [⟨nmQ1, addrB, none⟩, ⟨nmQ2, addrB, none⟩]
      [⟨nmP1, addrB, some 1⟩] [] = .error .nullDeref := rfl

/-- C10: `nc_migrate_proxies` asserts at lines 298-299 that both pool
arrays are non-empty, so calling it with an empty pool collection on
either side fails the assertion instead of being a no-op. -/
theorem migrate_asserts_nonempty (dst src : List ServerPool) (ow : List (Nat × Nat))
    (h : src.length = 0 ∨ dst.length = 0) :
    nc_migrate_proxies dst src ow = .error .assertFail := by
  unfold nc_migrate_proxies
  rcases h with h | h
  · rw [if_pos h]
  · by_cases hs : src.length = 0
    · rw [if_pos hs]
    · rw [if_neg hs, if_pos h]

/-- C10 witness: both generations empty. -/
theorem migrate_asserts_nonempty_witness :
    nc_migrate_proxies [] [] [] = .error .assertFail :=
  migrate_asserts_nonempty [] [] [] (Or.inl rfl)

/-- Process roles (`ROLE_MASTER` / `ROLE_WORKER` of `nc_process.h`). -/
inductive Role where
  | master
  | worker
deriving Repr, DecidableEq

/-- A configuration generation (`struct context`) as consumed by this
file: the configured worker-process count
(`ctx->cf->global.worker_processes`, read at line 116) and the proxy pool
array (`ctx->pool`, read by `nc_migrate_proxies`). -/
structure Ctx where
  worker_processes : Nat
  pool : List ServerPool
deriving Repr, DecidableEq

/-- A process descriptor (`struct instance`) as consumed by this file:
role, owned context (with a numeric identity `ctxId` so context
destruction can be observed), the channel (`chan`, a numeric channel id,
`none` for `NULL`) and recorded process id (`none` before a fork
completes).  The master's worker array is kept outside this structure,
in `MState`. -/
structure NcInstance where
  role : Role
  ctx : Ctx
  ctxId : Nat
  chan : Option Nat
  pid : Option Nat
deriving Repr, DecidableEq

/-- Observable events of the process-management code, in program order:
writing the quit command to a channel (line 206), releasing a channel
(line 209), destroying a worker's context (line 211), a successful
instance clone (lines 133-138), an invocation of the Socket Migrator for
worker index `i` (line 142), a successful listener bind (line 145), and
entry into `nc_shutdown_workers` for the old generation (line 151). -/
inductive Ev where
  | sendQuit (chan : Nat)
  | deallocChan (chan : Nat)
  | destroyCtx (ctxId : Nat)
  | cloneWorker (i : Nat)
  | migrateCall (i : Nat)
  | bindListener (i : Nat)
  | shutdownOldGen
deriving Repr, DecidableEq

/-- Does an event record a quit command being written? -/
def isQuitEv : Ev → Bool
  | .sendQuit _ => true
  | _ => false

/-- The three events lines 204-211 emit for one popped worker: quit
command written to its channel (a failing `nc_write_channel` is only
logged, the write is still issued), channel released, context
destroyed. -/
def quitEvents (w : NcInstance) : List Ev :=
  match w.chan with
  | none => []
  | some ch => [.sendQuit ch, .deallocChan ch, .destroyCtx w.ctxId]

/-- Loop of `nc_shutdown_workers` (lines 201-212): `nelem` is latched
before the first iteration, and each iteration pops the LAST element of
the worker array (`array_pop`), writes the quit command to its channel
(`worker_nci->chan->fds[0]` - a null-pointer dereference if `chan` is
`NULL`), releases the channel and destroys the context.  The fuel
argument is the latched `nelem`. -/
def shutdownLoop : Nat → List NcInstance → List Ev → Except Fault (List NcInstance × List Ev)
  | 0, ws, tr => .ok (ws, tr)
  | n + 1, ws, tr =>
    match ws.getLast? with
    | none => .ok (ws, tr)
    | some w =>
      match w.chan with
      | none => .error .nullDeref
      | some ch =>
        shutdownLoop n ws.dropLast
          (tr ++ [.sendQuit ch, .deallocChan ch, .destroyCtx w.ctxId])

/-- `nc_shutdown_workers` (`src/src/nc_process.c:193-216`): pop every
worker, send quit, release channel, destroy context; finally the array is
deinitialized (line 214) and `NC_OK` returned. -/
def nc_shutdown_workers (ws : List NcInstance) :
    Except Fault (List NcInstance × List Ev × Rstatus) :=
  match shutdownLoop ws.length ws [] with
  | .error f => .error f
  | .ok (ws', tr) => .ok (ws', tr, .NC_OK)

/-- If the shutdown loop completes, every worker had a channel. -/
theorem shutdownLoop_ok_chans (ws : List NcInstance) :
    ∀ (tr : List Ev) (out : List NcInstance × List Ev),
      shutdownLoop ws.length ws tr = .ok out → ∀ w ∈ ws, w.chan.isSome := by
  induction ws using List.reverseRecOn with
  | nil => intro tr out _ w hw; simp at hw
  | append_singleton ws w ih =>
    intro tr out h x hx
    rw [show (ws ++ [w]).length = ws.length + 1 by simp] at h
    simp only [shutdownLoop, List.getLast?_concat] at h
    cases hch : w.chan with
    | none => simp [hch] at h
    | some ch =>
      simp only [hch, List.dropLast_concat] at h
      rcases List.mem_append.mp hx with hx | hx
      · exact ih (tr ++ [.sendQuit ch, .deallocChan ch, .destroyCtx w.ctxId]) out h x hx
      · rw [List.mem_singleton.mp hx, hch]
        rfl

/-- Exact behaviour of the shutdown loop when every worker has a channel:
the array is drained completely and the trace is the concatenation, in
pop (reverse-array) order, of each worker's three events. -/
theorem shutdownLoop_spec (ws : List NcInstance) :
    ∀ (tr : List Ev), (∀ w ∈ ws, w.chan.isSome) →
      shutdownLoop ws.length ws tr = .ok ([], tr ++ ws.reverse.flatMap quitEvents) := by
  induction ws using List.reverseRecOn with
  | nil => intro tr _; simp [shutdownLoop]
  | append_singleton ws w ih =>
    intro tr hall
    rw [show (ws ++ [w]).length = ws.length + 1 by simp]
    simp only [shutdownLoop, List.getLast?_concat]
    cases hch : w.chan with
    | none =>
      have := hall w (by simp)
      rw [hch] at this
      simp at this
    | some ch =>
      simp only [hch, List.dropLast_concat]
      have hstep := ih (tr ++ [Ev.sendQuit ch, Ev.deallocChan ch, Ev.destroyCtx w.ctxId])
        (fun x hx => hall x (by simp [hx]))
      rw [hstep]
      simp [quitEvents, hch]

/-- Each completed worker block contributes exactly one quit event. -/
theorem countP_flatMap_quit (l : List NcInstance) :
    (∀ w ∈ l, w.chan.isSome) →
    (l.flatMap quitEvents).countP isQuitEv = l.length := by
  induction l with
  | nil => intro _; simp
  | cons w l ih =>
    intro hall
    have hch := hall w (by simp)
    rw [List.flatMap_cons, List.countP_append, ih (fun x hx => hall x (by simp [hx]))]
    cases hc : w.chan with
    | none => rw [hc] at hch; simp at hch
    | some ch =>
      simp [quitEvents, hc, List.countP_cons, isQuitEv]
      omega

/-- Index arithmetic for the flat worker-event trace: worker at position
`p` owns the three trace slots `3p`, `3p+1`, `3p+2`. -/
theorem flatMap_quit_pos (l : List NcInstance) :
    ∀ (p : Nat) (x : NcInstance), (∀ w ∈ l, w.chan.isSome) → l[p]? = some x →
      ((l.flatMap quitEvents)[3 * p]? = (quitEvents x)[0]? ∧
        (l.flatMap quitEvents)[3 * p + 1]? = (quitEvents x)[1]? ∧
        (l.flatMap quitEvents)[3 * p + 2]? = (quitEvents x)[2]?) := by
  induction l with
  | nil => intro p x _ hp; simp at hp
  | cons y l ih =>
    intro p x hall hp
    have hch := hall y (by simp)
    have hlen : (quitEvents y).length = 3 := by
      cases hc : y.chan with
      | none => rw [hc] at hch; simp at hch
      | some ch => simp [quitEvents, hc]
    rw [List.flatMap_cons]
    cases p with
    | zero =>
      obtain rfl : y = x := by simpa using hp
      refine ⟨?_, ?_, ?_⟩ <;>
        rw [List.getElem?_append_left (by omega)] <;> norm_num
    | succ p' =>
      have hstep : ∀ (q : Nat), (quitEvents y ++ l.flatMap quitEvents)[3 * (p' + 1) + q]? =
          (l.flatMap quitEvents)[3 * p' + q]? := by
        intro q
        rw [List.getElem?_append_right (by omega)]
        congr 1
        omega
      obtain ⟨g0, g1, g2⟩ := ih p' x (fun w hw => hall w (by simp [hw])) (by simpa using hp)
      exact ⟨by rw [show 3 * (p' + 1) = 3 * (p' + 1) + 0 by omega, hstep 0]; simpa using g0,
        by rw [hstep 1]; exact g1, by rw [hstep 2]; exact g2⟩

/-- C6: after `nc_shutdown_workers` runs on a generation of `K` worker
descriptors, the descriptor collection is empty, exactly `K` quit
messages were written - one per worker's channel, the trace being
precisely the per-worker blocks in pop order - and each quit command is
sent strictly before that worker's channel is released and before that
worker's context is destroyed. -/
theorem shutdown_workers_complete
    (ws l : List NcInstance) (tr : List Ev) (st : Rstatus)
    (h : nc_shutdown_workers ws = .ok (l, tr, st)) :
    l = [] ∧ st = .NC_OK ∧
      tr = ws.reverse.flatMap quitEvents ∧
      tr.countP isQuitEv = ws.length ∧
      ∀ w ∈ ws, ∃ ch, w.chan = some ch ∧
        ∃ (a b b' : Nat), a < b ∧ a < b' ∧
          tr[a]? = some (.sendQuit ch) ∧ tr[b]? = some (.deallocChan ch) ∧
          tr[b']? = some (.destroyCtx w.ctxId) := by
  unfold nc_shutdown_workers at h
  cases hs : shutdownLoop ws.length ws [] with
  | error f => simp [hs] at h
  | ok out =>
    obtain ⟨ws', tr'⟩ := out
    simp only [hs, Except.ok.injEq, Prod.mk.injEq] at h
    obtain ⟨h1, h2, h3⟩ := h
    have hchans := shutdownLoop_ok_chans ws [] (ws', tr') hs
    have hchar := shutdownLoop_spec ws [] hchans
    rw [hchar] at hs
    have hw : ws' = [] ∧ tr' = ws.reverse.flatMap quitEvents := by
      have := Except.ok.inj hs
      exact ⟨(Prod.mk.injEq _ _ _ _ ▸ this).1.symm, by
        have h2' := (Prod.mk.injEq _ _ _ _ ▸ this).2
        simpa using h2'.symm⟩
    obtain ⟨hw1, hw2⟩ := hw
    subst h1; subst h2; subst h3
    refine ⟨hw1, rfl, hw2, ?_, ?_⟩
    · rw [hw2]
      rw [countP_flatMap_quit ws.reverse (fun w hwm => hchans w (List.mem_reverse.mp hwm))]
      exact List.length_reverse ws
    · intro w hwm
      have hch := hchans w hwm
      cases hc : w.chan with
      | none => rw [hc] at hch; simp at hch
      | some ch =>
        obtain ⟨p, hp⟩ := List.getElem?_of_mem (List.mem_reverse.mpr hwm)
        obtain ⟨g0, g1, g2⟩ := flatMap_quit_pos ws.reverse p w
          (fun x hx => hchans x (List.mem_reverse.mp hx)) hp
        refine ⟨ch, rfl, 3 * p, 3 * p + 1, 3 * p + 2, by omega, by omega, ?_, ?_, ?_⟩
        · rw [hw2, g0]; simp [quitEvents, hc]
        · rw [hw2, g1]; simp [quitEvents, hc]
        · rw [hw2, g2]; simp [quitEvents, hc]

/-- C6 witness: a two-worker generation is drained in pop order. -/
theorem shutdown_workers_complete_witness :
    ([] : List NcInstance) = [] ∧ Rstatus.NC_OK = Rstatus.NC_OK ∧
      [Ev.sendQuit 8, Ev.deallocChan 8, Ev.destroyCtx 21, Ev.sendQuit 7,
        Ev.deallocChan 7, Ev.destroyCtx 20] =
        ([NcInstance.mk .worker ⟨1, []⟩ 20 (some 7) (some 100),
          NcInstance.mk .worker ⟨1, []⟩ 21 (some 8) (some 101)] :
            List NcInstance).reverse.flatMap quitEvents ∧
      ([Ev.sendQuit 8, Ev.deallocChan 8, Ev.destroyCtx 21, Ev.sendQuit 7,
        Ev.deallocChan 7, Ev.destroyCtx 20].countP isQuitEv) =
        ([NcInstance.mk .worker ⟨1, []⟩ 20 (some 7) (some 100),
          NcInstance.mk .worker ⟨1, []⟩ 21 (some 8) (some 101)] :
            List NcInstance).length ∧
      ∀ w ∈ ([NcInstance.mk .worker ⟨1, []⟩ 20 (some 7) (some 100),
          NcInstance.mk .worker ⟨1, []⟩ 21 (some 8) (some 101)] : List NcInstance),
        ∃ ch, w.chan = some ch ∧
          ∃ (a b b' : Nat), a < b ∧ a < b' ∧
            [Ev.sendQuit 8, Ev.deallocChan 8, Ev.destroyCtx 21, Ev.sendQuit 7,
              Ev.deallocChan 7, Ev.destroyCtx 20][a]? = some (.sendQuit ch) ∧
            [Ev.sendQuit 8, Ev.deallocChan 8, Ev.destroyCtx 21, Ev.sendQuit 7,
              Ev.deallocChan 7, Ev.destroyCtx 20][b]? = some (.deallocChan ch) ∧
            [Ev.sendQuit 8, Ev.deallocChan 8, Ev.destroyCtx 21, Ev.sendQuit 7,
              Ev.deallocChan 7, Ev.destroyCtx 20][b']? = some (.destroyCtx w.ctxId) :=
  shutdown_workers_complete
    [NcInstance.mk .worker ⟨1, []⟩ 20 (some 7) (some 100),
      NcInstance.mk .worker ⟨1, []⟩ 21 (some 8) (some 101)] []
    [Ev.sendQuit 8, Ev.deallocChan 8, Ev.destroyCtx 21, Ev.sendQuit 7,
      Ev.deallocChan 7, Ev.destroyCtx 20] .NC_OK rfl

/-- Oracle environment for the external collaborators of
`nc_setup_listener_for_workers`.

Modelled from the spec: `array_init` (allocation can fail),
`core_ctx_create` (builds a fresh context - identity and pool set - from
the instance's configuration, `NULL` on failure; used via
`nc_clone_instance`, lines 18-33), and `core_init_listener` (per spec
section 6: binds every pool that has no connection yet and re-registers a
migrated one; returns a status and the updated pool array).  Each oracle
is indexed by the worker number being built. -/
structure BuildEnv where
  arrayInitOk : Bool
  cloneCtx : Nat → Option (Nat × Ctx)
  bindCtx : Nat → List ServerPool → Rstatus × List ServerPool

/-- Loop body of `nc_setup_listener_for_workers` (lines 132-149), iterated
over the remaining worker indices.  Per index: `array_push` plus
`nc_clone_instance` (a failure leaves the memcpy-ed slot - a copy of the
parent - in the array and returns `NC_ERROR`); on a reload with `i` below
the old generation's latched size, `nc_migrate_proxies` runs between the
new worker's pools and old worker `i`'s pools, its returned status
ignored (line 142); then `core_init_listener`, whose failure status is
returned as-is.  `ws` accumulates the new generation, `old` carries the
old generation (its pools are mutated by migration), `tr` the trace. -/
def buildLoop (env : BuildEnv) (parent : NcInstance) (reloading : Bool) (oldN : Nat) :
    List Nat → List NcInstance → List NcInstance → List Ev →
      Except Fault (List NcInstance × List NcInstance × List Ev × Rstatus)
  | [], ws, old, tr => .ok (ws, old, tr, .NC_OK)
  | i :: rest, ws, old, tr =>
    match env.cloneCtx i with
    | none => .ok (ws ++ [parent], old, tr, .NC_ERROR)
    | some (cid, cx) =>
      let w1 : NcInstance := { parent with ctx := cx, ctxId := cid, role := .worker }
      if reloading ∧ i < oldN then
        match old[i]? with
        | none => .error .assertFail
        | some ow =>
          match nc_migrate_proxies w1.ctx.pool ow.ctx.pool [] with
          | .error f => .error f
          | .ok mout =>
            let w2 : NcInstance := { w1 with ctx := { w1.ctx with pool := mout.dst } }
            let old' := old.set i { ow with ctx := { ow.ctx with pool := mout.src } }
            let tr2 := tr ++ [Ev.cloneWorker i, Ev.migrateCall i]
            match env.bindCtx i w2.ctx.pool with
            | (st, pools') =>
              if st = .NC_OK then
                buildLoop env parent reloading oldN rest
                  (ws ++ [{ w2 with ctx := { w2.ctx with pool := pools' } }]) old'
                  (tr2 ++ [Ev.bindListener i])
              else
                .ok (ws ++ [{ w2 with ctx := { w2.ctx with pool := pools' } }], old', tr2, st)
      else
        let tr1 := tr ++ [Ev.cloneWorker i]
        match env.bindCtx i w1.ctx.pool with
        | (st, pools') =>
          if st = .NC_OK then
            buildLoop env parent reloading oldN rest
              (ws ++ [{ w1 with ctx := { w1.ctx with pool := pools' } }]) old
              (tr1 ++ [Ev.bindListener i])
          else
            .ok (ws ++ [{ w1 with ctx := { w1.ctx with pool := pools' } }], old, tr1, st)

/-- `nc_setup_listener_for_workers` (`src/src/nc_process.c:112-154`): on a
reload the current worker array is latched as the old generation (lines
121-124); the worker array is re-initialized (line 126, `NC_ENOMEM` on
failure); the loop builds and binds `n` workers
(`n = parent.ctx.worker_processes`, line 116); only when the loop
completes (status `NC_OK`) and this is a reload is `nc_shutdown_workers`
invoked on the old generation (lines 150-152).  Result: the new worker
array, the event trace, and the returned status. -/
def nc_setup_listener_for_workers (env : BuildEnv) (parent : NcInstance)
    (workersIn : List NcInstance) (reloading : Bool) :
    Except Fault (List NcInstance × List Ev × Rstatus) :=
  let n := parent.ctx.worker_processes
  let old := if reloading then workersIn else []
  if env.arrayInitOk = false then .ok ([], [], .NC_ENOMEM)
  else
    match buildLoop env parent reloading old.length (List.range n) [] old [] with
    | .error f => .error f
    | .ok (ws, old', tr, st) =>
      if st = .NC_OK ∧ reloading then
        match nc_shutdown_workers old' with
        | .error f => .error f
        | .ok (_, str, _) => .ok (ws, tr ++ Ev.shutdownOldGen :: str, .NC_OK)
      else .ok (ws, tr, st)

/-- Oracle environment for `nc_spawn_workers`: `nc_alloc_channel` (a
channel id, `none` for allocation failure) and `fork` (the child pid seen
by the parent, `none` for failure), indexed by worker number.

Modelled from the spec: both collaborators live outside this tree; the
child branch of the fork (lines 176-183: role change, proxy pruning,
worker run loop) executes in a separate address space and is not part of
the master-side state modelled here. -/
structure SpawnEnv where
  allocChan : Nat → Option Nat
  forkPid : Nat → Option Nat

/-- Loop of `nc_spawn_workers` (lines 165-189), master side: per worker,
assign a freshly allocated channel (the assignment happens even when the
allocation fails and yields `NULL`, line 167; then return `NC_ENOMEM`);
fork (on failure return `NC_ERROR`, line 175); in the parent record the
child pid (line 185) and continue.  Workers after an aborting index are
left untouched. -/
def spawnLoop (env : SpawnEnv) : Nat → List NcInstance → List NcInstance × Rstatus
  | _, [] => ([], .NC_OK)
  | i, w :: ws =>
    match env.allocChan i with
    | none => ({ w with chan := none } :: ws, .NC_ENOMEM)
    | some ch =>
      match env.forkPid i with
      | none => ({ w with chan := some ch } :: ws, .NC_ERROR)
      | some pid =>
        let out := spawnLoop env (i + 1) ws
        ({ w with chan := some ch, pid := some pid } :: out.1, out.2)

/-- `nc_spawn_workers` (`src/src/nc_process.c:156-191`): asserts the
worker array is non-empty (line 163), then runs the spawn loop. -/
def nc_spawn_workers (env : SpawnEnv) (workers : List NcInstance) :
    Except Fault (List NcInstance × Rstatus) :=
  if workers.length = 0 then .error .assertFail
  else .ok (spawnLoop env 0 workers)

/-- Oracle environment for one pass of the master control loop:
`core_ctx_create` for the master's fresh reload context (line 79), plus
the builder and spawner environments. -/
structure PassEnv where
  ctxCreate : Option (Nat × Ctx)
  build : BuildEnv
  spawn : SpawnEnv

/-- Master-process state across control-loop passes: the master instance
(`parent_nci`), its worker array, and the two sticky flags. -/
structure MState where
  parent : NcInstance
  workers : List NcInstance
  pm_reload : Bool
  pm_respawn : Bool
deriving Repr, DecidableEq

/-- How one pass of the `for (;;)` loop of `nc_multi_processes_cycle`
ends: `broke st` models the `break` at line 102 followed by `return
status` (line 109); `waited` models reaching `sigsuspend` (line 107). -/
inductive PassOutcome where
  | broke (m : MState) (st : Rstatus)
  | waited (m : MState)
deriving Repr, DecidableEq

/-- The respawn block of the master loop (lines 98-104): clear
`pm_respawn`, spawn; a non-`NC_OK` status breaks the loop, otherwise the
pass falls through to `sigsuspend`. -/
def respawnCheck (env : PassEnv) (m : MState) (tr : List Ev) :
    Except Fault (PassOutcome × List Ev) :=
  if m.pm_respawn then
    let m1 := { m with pm_respawn := false }
    match nc_spawn_workers env.spawn m1.workers with
    | .error f => .error f
    | .ok (ws, st) =>
      if st = .NC_OK then .ok (.waited { m1 with workers := ws }, tr)
      else .ok (.broke { m1 with workers := ws } st, tr)
  else .ok (.waited m, tr)

/-- One pass of the master control loop (`nc_multi_processes_cycle`,
lines 75-108).  Reload block (lines 76-95): clear `pm_reload`; if context
creation fails, log and continue (the `continue` re-enters the loop with
`pm_reload` now false, so control proceeds to the respawn check); on
success install the new context, run the builder against the old worker
array; on builder failure restore the previous context (line 90) - the
worker array keeps whatever the builder left - and continue; on success
set `pm_respawn`.  Then the respawn block, then `sigsuspend`.  Signal
arrivals are modelled only at the wait, as flag merges between passes
(see `masterLoop`). -/
def masterPass (env : PassEnv) (m : MState) : Except Fault (PassOutcome × List Ev) :=
  if m.pm_reload then
    let m1 := { m with pm_reload := false }
    match env.ctxCreate with
    | none => respawnCheck env m1 []
    | some (cid, cx) =>
      let p1 : NcInstance := { m1.parent with ctx := cx, ctxId := cid }
      match nc_setup_listener_for_workers env.build p1 m1.workers true with
      | .error f => .error f
      | .ok (ws, tr, st) =>
        if st = .NC_OK then
          respawnCheck env { m1 with parent := p1, workers := ws, pm_respawn := true } tr
        else
          respawnCheck env
            { m1 with
              parent := { p1 with ctx := m.parent.ctx, ctxId := m.parent.ctxId },
              workers := ws } tr
  else respawnCheck env m []

/-- One round of the master loop: the pass environment, and the flag
values set by signal handlers while the master sits in `sigsuspend` at
the end of the pass. -/
structure RoundEnv where
  pass : PassEnv
  sigReload : Bool
  sigRespawn : Bool

/-- The `for (;;)` loop of `nc_multi_processes_cycle` over finitely many
observed rounds: a pass that breaks terminates the loop with its status
(`some st`, the value returned at line 109); a pass that waits absorbs
the signals of its round and continues.  `none` means the loop was still
running when the observed rounds were exhausted. -/
def masterLoop : List RoundEnv → MState → Except Fault (Option Rstatus × MState)
  | [], m => .ok (none, m)
  | r :: rs, m =>
    match masterPass r.pass m with
    | .error f => .error f
    | .ok (.broke m' st, _) => .ok (some st, m')
    | .ok (.waited m', _) =>
      masterLoop rs
        { m' with
          pm_reload := m'.pm_reload || r.sigReload,
          pm_respawn := m'.pm_respawn || r.sigRespawn }

/-- Step equation: a failed clone aborts the loop with `NC_ERROR`,
leaving the memcpy-ed parent copy in the array. -/
theorem buildLoop_clone_fail (env : BuildEnv) (parent : NcInstance) (reloading : Bool)
    (oldN i : Nat) (rest : List Nat) (ws old : List NcInstance) (tr : List Ev)
    (hcl : env.cloneCtx i = none) :
    buildLoop env parent reloading oldN (i :: rest) ws old tr =
      .ok (ws ++ [parent], old, tr, .NC_ERROR) := by
  simp only [buildLoop, hcl]

/-- Step equation: a reload step whose old-generation index is out of
range fails the `array_get` bound assertion. -/
theorem buildLoop_old_missing (env : BuildEnv) (parent : NcInstance) (reloading : Bool)
    (oldN i : Nat) (rest : List Nat) (ws old : List NcInstance) (tr : List Ev)
    (cid : Nat) (cx : Ctx)
    (hcl : env.cloneCtx i = some (cid, cx)) (hri : reloading ∧ i < oldN)
    (hgi : old[i]? = none) :
    buildLoop env parent reloading oldN (i :: rest) ws old tr = .error .assertFail := by
  simp only [buildLoop, hcl]
  rw [if_pos hri]
  simp only [hgi]

/-- Step equation: a migration fault crashes the whole build. -/
theorem buildLoop_mig_crash (env : BuildEnv) (parent : NcInstance) (reloading : Bool)
    (oldN i : Nat) (rest : List Nat) (ws old : List NcInstance) (tr : List Ev)
    (cid : Nat) (cx : Ctx) (ow : NcInstance) (f : Fault)
    (hcl : env.cloneCtx i = some (cid, cx)) (hri : reloading ∧ i < oldN)
    (hgi : old[i]? = some ow)
    (hmg : nc_migrate_proxies cx.pool ow.ctx.pool [] = .error f) :
    buildLoop env parent reloading oldN (i :: rest) ws old tr = .error f := by
  simp only [buildLoop, hcl]
  rw [if_pos hri]
  simp only [hgi, hmg]

/-- Step equation for a reload iteration whose migration completes: the
Migrator's returned status is ignored, the bind step's status alone
decides whether the loop continues. -/
theorem buildLoop_mig_step (env : BuildEnv) (parent : NcInstance) (reloading : Bool)
    (oldN i : Nat) (rest : List Nat) (ws old : List NcInstance) (tr : List Ev)
    (cid : Nat) (cx : Ctx) (ow : NcInstance) (mout : MigOut)
    (st : Rstatus) (pools' : List ServerPool)
    (hcl : env.cloneCtx i = some (cid, cx)) (hri : reloading ∧ i < oldN)
    (hgi : old[i]? = some ow)
    (hmg : nc_migrate_proxies cx.pool ow.ctx.pool [] = .ok mout)
    (hb : env.bindCtx i mout.dst = (st, pools')) :
    buildLoop env parent reloading oldN (i :: rest) ws old tr =
      if st = .NC_OK then
        buildLoop env parent reloading oldN rest
          (ws ++ [{ parent with role := .worker, ctx := { cx with pool := pools' }, ctxId := cid }])
          (old.set i { ow with ctx := { ow.ctx with pool := mout.src } })
          ((tr ++ [Ev.cloneWorker i, Ev.migrateCall i]) ++ [Ev.bindListener i])
      else
        .ok (ws ++ [{ parent with role := .worker, ctx := { cx with pool := pools' }, ctxId := cid }],
          old.set i { ow with ctx := { ow.ctx with pool := mout.src } },
          tr ++ [Ev.cloneWorker i, Ev.migrateCall i], st) := by
  simp only [buildLoop, hcl]
  rw [if_pos hri]
  simp only [hgi, hmg, hb]

/-- Step equation for a non-reload (or out-of-old-range) iteration. -/
theorem buildLoop_plain_step (env : BuildEnv) (parent : NcInstance) (reloading : Bool)
    (oldN i : Nat) (rest : List Nat) (ws old : List NcInstance) (tr : List Ev)
    (cid : Nat) (cx : Ctx) (st : Rstatus) (pools' : List ServerPool)
    (hcl : env.cloneCtx i = some (cid, cx)) (hri : ¬(reloading ∧ i < oldN))
    (hb : env.bindCtx i cx.pool = (st, pools')) :
    buildLoop env parent reloading oldN (i :: rest) ws old tr =
      if st = .NC_OK then
        buildLoop env parent reloading oldN rest
          (ws ++ [{ parent with role := .worker, ctx := { cx with pool := pools' }, ctxId := cid }])
          old ((tr ++ [Ev.cloneWorker i]) ++ [Ev.bindListener i])
      else
        .ok (ws ++ [{ parent with role := .worker, ctx := { cx with pool := pools' }, ctxId := cid }], old, tr ++ [Ev.cloneWorker i], st) := by
  simp only [buildLoop, hcl]
  rw [if_neg hri]
  simp only [hb]

/-- The events one successful builder-loop iteration appends for worker
index `i`. -/
def stepEvts (reloading : Bool) (oldN : Nat) (i : Nat) : List Ev :=
  Ev.cloneWorker i ::
    ((if reloading ∧ i < oldN then [Ev.migrateCall i] else []) ++ [Ev.bindListener i])

/-- Is an event one emitted by the builder loop itself (as opposed to the
shutdown sequencer)? -/
def isLoopEv : Ev → Bool
  | .cloneWorker _ => true
  | .migrateCall _ => true
  | .bindListener _ => true
  | _ => false

/-- A builder loop that ends with `NC_OK` ran every iteration to
completion: its trace is exactly one `stepEvts` block per index. -/
theorem buildLoop_ok_trace (env : BuildEnv) (parent : NcInstance) (reloading : Bool)
    (oldN : Nat) (idxs : List Nat) :
    ∀ (ws old : List NcInstance) (tr : List Ev) (ws' old' : List NcInstance) (tr' : List Ev),
      buildLoop env parent reloading oldN idxs ws old tr = .ok (ws', old', tr', .NC_OK) →
      tr' = tr ++ idxs.flatMap (stepEvts reloading oldN) := by
  induction idxs with
  | nil =>
    intro ws old tr ws' old' tr' h
    simp only [buildLoop, Except.ok.injEq, Prod.mk.injEq] at h
    obtain ⟨-, -, h3, -⟩ := h
    rw [← h3]
    simp
  | cons i rest ih =>
    intro ws old tr ws' old' tr' h
    cases hcl : env.cloneCtx i with
    | none =>
      rw [buildLoop_clone_fail env parent reloading oldN i rest ws old tr hcl] at h
      simp at h
    | some pr =>
      obtain ⟨cid, cx⟩ := pr
      by_cases hri : reloading ∧ i < oldN
      · cases hgi : old[i]? with
        | none =>
          rw [buildLoop_old_missing env parent reloading oldN i rest ws old tr cid cx
            hcl hri hgi] at h
          simp at h
        | some ow =>
          cases hmg : nc_migrate_proxies cx.pool ow.ctx.pool [] with
          | error f =>
            rw [buildLoop_mig_crash env parent reloading oldN i rest ws old tr cid cx ow f
              hcl hri hgi hmg] at h
            simp at h
          | ok mout =>
            cases hbe : env.bindCtx i mout.dst with
            | mk st0 pools' =>
              rw [buildLoop_mig_step env parent reloading oldN i rest ws old tr cid cx ow
                mout st0 pools' hcl hri hgi hmg hbe] at h
              by_cases hst : st0 = .NC_OK
              · rw [if_pos hst] at h
                rw [ih _ _ _ _ _ _ h]
                simp [stepEvts, hri]
              · rw [if_neg hst] at h
                simp only [Except.ok.injEq, Prod.mk.injEq] at h
                exact absurd h.2.2.2 hst
      · cases hbe : env.bindCtx i cx.pool with
        | mk st0 pools' =>
          rw [buildLoop_plain_step env parent reloading oldN i rest ws old tr cid cx st0
            pools' hcl hri hbe] at h
          by_cases hst : st0 = .NC_OK
          · rw [if_pos hst] at h
            rw [ih _ _ _ _ _ _ h]
            simp [stepEvts, hri]
          · rw [if_neg hst] at h
            simp only [Except.ok.injEq, Prod.mk.injEq] at h
            exact absurd h.2.2.2 hst

/-- Whatever way the builder loop returns, its trace only grows by
clone/migrate/bind events, and a migrate event for index `i` can only
appear on a reload with `i` inside the old generation's bounds, for an
index the loop actually visited. -/
theorem buildLoop_trace_shape (env : BuildEnv) (parent : NcInstance) (reloading : Bool)
    (oldN : Nat) (idxs : List Nat) :
    ∀ (ws old : List NcInstance) (tr : List Ev) (ws' old' : List NcInstance) (tr' : List Ev)
      (st : Rstatus),
      buildLoop env parent reloading oldN idxs ws old tr = .ok (ws', old', tr', st) →
      ∃ suf, tr' = tr ++ suf ∧ (∀ e ∈ suf, isLoopEv e) ∧
        (∀ i, Ev.migrateCall i ∈ suf → reloading ∧ i < oldN ∧ i ∈ idxs) := by
  induction idxs with
  | nil =>
    intro ws old tr ws' old' tr' st h
    simp only [buildLoop, Except.ok.injEq, Prod.mk.injEq] at h
    obtain ⟨-, -, h3, -⟩ := h
    exact ⟨[], by rw [← h3]; simp, by simp, by simp⟩
  | cons i rest ih =>
    intro ws old tr ws' old' tr' st h
    cases hcl : env.cloneCtx i with
    | none =>
      rw [buildLoop_clone_fail env parent reloading oldN i rest ws old tr hcl] at h
      simp only [Except.ok.injEq, Prod.mk.injEq] at h
      exact ⟨[], by rw [← h.2.2.1]; simp, by simp, by simp⟩
    | some pr =>
      obtain ⟨cid, cx⟩ := pr
      by_cases hri : reloading ∧ i < oldN
      · cases hgi : old[i]? with
        | none =>
          rw [buildLoop_old_missing env parent reloading oldN i rest ws old tr cid cx
            hcl hri hgi] at h
          simp at h
        | some ow =>
          cases hmg : nc_migrate_proxies cx.pool ow.ctx.pool [] with
          | error f =>
            rw [buildLoop_mig_crash env parent reloading oldN i rest ws old tr cid cx ow f
              hcl hri hgi hmg] at h
            simp at h
          | ok mout =>
            cases hbe : env.bindCtx i mout.dst with
            | mk st0 pools' =>
              rw [buildLoop_mig_step env parent reloading oldN i rest ws old tr cid cx ow
                mout st0 pools' hcl hri hgi hmg hbe] at h
              by_cases hst : st0 = .NC_OK
              · rw [if_pos hst] at h
                obtain ⟨suf, hsuf, hkind, hmig⟩ := ih _ _ _ _ _ _ _ h
                refine ⟨[Ev.cloneWorker i, Ev.migrateCall i, Ev.bindListener i] ++ suf,
                  by rw [hsuf]; simp, ?_, ?_⟩
                · intro e he
                  rcases List.mem_append.mp he with he | he
                  · fin_cases he <;> rfl
                  · exact hkind e he
                · intro i' hmem
                  rcases List.mem_append.mp hmem with hmem | hmem
                  · simp only [List.mem_cons, List.not_mem_nil, or_false] at hmem
                    rcases hmem with hmem | hmem | hmem
                    · exact absurd hmem (by simp)
                    · injection hmem with hi'
                      subst hi'
                      exact ⟨hri.1, hri.2, by simp⟩
                    · exact absurd hmem (by simp)
                  · obtain ⟨ha, hb2, hc2⟩ := hmig i' hmem
                    exact ⟨ha, hb2, by simp [hc2]⟩
              · rw [if_neg hst] at h
                simp only [Except.ok.injEq, Prod.mk.injEq] at h
                refine ⟨[Ev.cloneWorker i, Ev.migrateCall i],
                  by rw [← h.2.2.1], ?_, ?_⟩
                · intro e he
                  fin_cases he <;> rfl
                · intro i' hmem
                  simp only [List.mem_cons, List.not_mem_nil, or_false] at hmem
                  rcases hmem with hmem | hmem
                  · exact absurd hmem (by simp)
                  · injection hmem with hi'
                    subst hi'
                    exact ⟨hri.1, hri.2, by simp⟩
      · cases hbe : env.bindCtx i cx.pool with
        | mk st0 pools' =>
          rw [buildLoop_plain_step env parent reloading oldN i rest ws old tr cid cx st0
            pools' hcl hri hbe] at h
          by_cases hst : st0 = .NC_OK
          · rw [if_pos hst] at h
            obtain ⟨suf, hsuf, hkind, hmig⟩ := ih _ _ _ _ _ _ _ h
            refine ⟨[Ev.cloneWorker i, Ev.bindListener i] ++ suf,
              by rw [hsuf]; simp, ?_, ?_⟩
            · intro e he
              rcases List.mem_append.mp he with he | he
              · fin_cases he <;> rfl
              · exact hkind e he
            · intro i' hmem
              rcases List.mem_append.mp hmem with hmem | hmem
              · simp only [List.mem_cons, List.not_mem_nil, or_false] at hmem
                rcases hmem with hmem | hmem
                · exact absurd hmem (by simp)
                · exact absurd hmem (by simp)
              · obtain ⟨ha, hb2, hc2⟩ := hmig i' hmem
                exact ⟨ha, hb2, by simp [hc2]⟩
          · rw [if_neg hst] at h
            simp only [Except.ok.injEq, Prod.mk.injEq] at h
            refine ⟨[Ev.cloneWorker i], by rw [← h.2.2.1], ?_, ?_⟩
            · intro e he
              fin_cases he <;> rfl
            · intro i' hmem
              simp only [List.mem_singleton] at hmem
              exact absurd hmem (by simp)

/-- If every clone and every bind the loop can reach succeeds, a
completing builder loop returns `NC_OK` - no migration outcome
(collision skip or name change) influences the status. -/
theorem buildLoop_all_ok (env : BuildEnv) (parent : NcInstance) (reloading : Bool)
    (oldN : Nat) (idxs : List Nat) :
    ∀ (ws old : List NcInstance) (tr : List Ev) (ws' old' : List NcInstance) (tr' : List Ev)
      (st : Rstatus),
      (∀ i ∈ idxs, (env.cloneCtx i).isSome) →
      (∀ i ∈ idxs, ∀ ps, (env.bindCtx i ps).1 = .NC_OK) →
      buildLoop env parent reloading oldN idxs ws old tr = .ok (ws', old', tr', st) →
      st = .NC_OK := by
  induction idxs with
  | nil =>
    intro ws old tr ws' old' tr' st _ _ h
    simp only [buildLoop, Except.ok.injEq, Prod.mk.injEq] at h
    exact h.2.2.2.symm
  | cons i rest ih =>
    intro ws old tr ws' old' tr' st hclone hbind h
    cases hcl : env.cloneCtx i with
    | none =>
      have := hclone i (by simp)
      rw [hcl] at this
      simp at this
    | some pr =>
      obtain ⟨cid, cx⟩ := pr
      by_cases hri : reloading ∧ i < oldN
      · cases hgi : old[i]? with
        | none =>
          rw [buildLoop_old_missing env parent reloading oldN i rest ws old tr cid cx
            hcl hri hgi] at h
          simp at h
        | some ow =>
          cases hmg : nc_migrate_proxies cx.pool ow.ctx.pool [] with
          | error f =>
            rw [buildLoop_mig_crash env parent reloading oldN i rest ws old tr cid cx ow f
              hcl hri hgi hmg] at h
            simp at h
          | ok mout =>
            cases hbe : env.bindCtx i mout.dst with
            | mk st0 pools' =>
              have hst : st0 = .NC_OK := by
                have hx := hbind i (by simp) mout.dst
                rw [hbe] at hx
                exact hx
              rw [buildLoop_mig_step env parent reloading oldN i rest ws old tr cid cx ow
                mout st0 pools' hcl hri hgi hmg hbe, if_pos hst] at h
              exact ih _ _ _ _ _ _ _ (fun q hq => hclone q (by simp [hq]))
                (fun q hq => hbind q (by simp [hq])) h
      · cases hbe : env.bindCtx i cx.pool with
        | mk st0 pools' =>
          have hst : st0 = .NC_OK := by
            have hx := hbind i (by simp) cx.pool
            rw [hbe] at hx
            exact hx
          rw [buildLoop_plain_step env parent reloading oldN i rest ws old tr cid cx st0
            pools' hcl hri hbe, if_pos hst] at h
          exact ih _ _ _ _ _ _ _ (fun q hq => hclone q (by simp [hq]))
            (fun q hq => hbind q (by simp [hq])) h

/-- Splitting the index range of the builder loop at a failing index. -/
theorem range_split (n k : Nat) (h : k < n) :
    List.range n = List.range k ++ k :: List.range' (k + 1) (n - k - 1) := by
  rw [List.range_eq_range', List.range_eq_range']
  have h2 : k :: List.range' (k + 1) (n - k - 1) = List.range' k (n - k - 1 + 1) := by
    rw [List.range'_succ]
  rw [h2]
  have h3 := List.range'_append 0 k (n - k - 1 + 1) 1
  simp only [Nat.zero_add, Nat.one_mul] at h3
  rw [h3]
  congr 1
  omega

/-- If every step before index `k` succeeds and the bind at `k` returns a
non-`NC_OK` status `s`, a completing builder loop returns exactly `s`. -/
theorem buildLoop_fail_bind (env : BuildEnv) (parent : NcInstance) (reloading : Bool)
    (oldN : Nat) (pre : List Nat) :
    ∀ (k : Nat) (post : List Nat) (ws old : List NcInstance) (tr : List Ev)
      (ws' old' : List NcInstance) (tr' : List Ev) (st s : Rstatus),
      (∀ i ∈ pre, (env.cloneCtx i).isSome) →
      (∀ i ∈ pre, ∀ ps, (env.bindCtx i ps).1 = .NC_OK) →
      (env.cloneCtx k).isSome →
      (∀ ps, (env.bindCtx k ps).1 = s) →
      s ≠ .NC_OK →
      buildLoop env parent reloading oldN (pre ++ k :: post) ws old tr =
        .ok (ws', old', tr', st) →
      st = s := by
  induction pre with
  | nil =>
    intro k post ws old tr ws' old' tr' st s _ _ hck hbk hs h
    simp only [List.nil_append] at h
    obtain ⟨pr, hcl⟩ := Option.isSome_iff_exists.mp hck
    obtain ⟨cid, cx⟩ := pr
    by_cases hri : reloading ∧ k < oldN
    · cases hgi : old[k]? with
      | none =>
        rw [buildLoop_old_missing env parent reloading oldN k post ws old tr cid cx
          hcl hri hgi] at h
        simp at h
      | some ow =>
        cases hmg : nc_migrate_proxies cx.pool ow.ctx.pool [] with
        | error f =>
          rw [buildLoop_mig_crash env parent reloading oldN k post ws old tr cid cx ow f
            hcl hri hgi hmg] at h
          simp at h
        | ok mout =>
          cases hbe : env.bindCtx k mout.dst with
          | mk st0 pools' =>
            have hst : st0 = s := by
              have hx := hbk mout.dst
              rw [hbe] at hx
              exact hx
            subst hst
            rw [buildLoop_mig_step env parent reloading oldN k post ws old tr cid cx ow
              mout st0 pools' hcl hri hgi hmg hbe, if_neg hs] at h
            simp only [Except.ok.injEq, Prod.mk.injEq] at h
            exact h.2.2.2.symm
    · cases hbe : env.bindCtx k cx.pool with
      | mk st0 pools' =>
        have hst : st0 = s := by
          have hx := hbk cx.pool
          rw [hbe] at hx
          exact hx
        subst hst
        rw [buildLoop_plain_step env parent reloading oldN k post ws old tr cid cx st0
          pools' hcl hri hbe, if_neg hs] at h
        simp only [Except.ok.injEq, Prod.mk.injEq] at h
        exact h.2.2.2.symm
  | cons q pre ih =>
    intro k post ws old tr ws' old' tr' st s hclone hbind hck hbk hs h
    simp only [List.cons_append] at h
    obtain ⟨pr, hcl⟩ := Option.isSome_iff_exists.mp (hclone q (by simp))
    obtain ⟨cid, cx⟩ := pr
    by_cases hri : reloading ∧ q < oldN
    · cases hgi : old[q]? with
      | none =>
        rw [buildLoop_old_missing env parent reloading oldN q (pre ++ k :: post) ws old tr
          cid cx hcl hri hgi] at h
        simp at h
      | some ow =>
        cases hmg : nc_migrate_proxies cx.pool ow.ctx.pool [] with
        | error f =>
          rw [buildLoop_mig_crash env parent reloading oldN q (pre ++ k :: post) ws old tr
            cid cx ow f hcl hri hgi hmg] at h
          simp at h
        | ok mout =>
          cases hbe : env.bindCtx q mout.dst with
          | mk st0 pools' =>
            have hst : st0 = .NC_OK := by
              have hx := hbind q (by simp) mout.dst
              rw [hbe] at hx
              exact hx
            rw [buildLoop_mig_step env parent reloading oldN q (pre ++ k :: post) ws old tr
              cid cx ow mout st0 pools' hcl hri hgi hmg hbe, if_pos hst] at h
            exact ih k post _ _ _ _ _ _ _ _ (fun x hx => hclone x (by simp [hx]))
              (fun x hx => hbind x (by simp [hx])) hck hbk hs h
    · cases hbe : env.bindCtx q cx.pool with
      | mk st0 pools' =>
        have hst : st0 = .NC_OK := by
          have hx := hbind q (by simp) cx.pool
          rw [hbe] at hx
          exact hx
        rw [buildLoop_plain_step env parent reloading oldN q (pre ++ k :: post) ws old tr
          cid cx st0 pools' hcl hri hbe, if_pos hst] at h
        exact ih k post _ _ _ _ _ _ _ _ (fun x hx => hclone x (by simp [hx]))
          (fun x hx => hbind x (by simp [hx])) hck hbk hs h

/-- Is an event one emitted by the shutdown sequencer? -/
def isShutSeqEv : Ev → Bool
  | .sendQuit _ => true
  | .deallocChan _ => true
  | .destroyCtx _ => true
  | _ => false

/-- The shutdown sequencer's trace holds only quit/release/destroy
events. -/
theorem shutdown_trace_kinds (l l' : List NcInstance) (str : List Ev) (st : Rstatus)
    (h : nc_shutdown_workers l = .ok (l', str, st)) : ∀ e ∈ str, isShutSeqEv e := by
  unfold nc_shutdown_workers at h
  cases hs : shutdownLoop l.length l [] with
  | error f => simp [hs] at h
  | ok out =>
    obtain ⟨ws', tr'⟩ := out
    simp only [hs, Except.ok.injEq, Prod.mk.injEq] at h
    have hchans := shutdownLoop_ok_chans l [] (ws', tr') hs
    have hchar := shutdownLoop_spec l [] hchans
    rw [hchar] at hs
    simp only [List.nil_append, Except.ok.injEq, Prod.mk.injEq] at hs
    intro e he
    rw [← h.2.1, ← hs.2] at he
    obtain ⟨w, hw, hew⟩ := List.mem_flatMap.mp he
    cases hc : w.chan with
    | none => simp [quitEvents, hc] at hew
    | some ch =>
      simp only [quitEvents, hc] at hew
      rcases List.mem_cons.mp hew with rfl | hew
      · rfl
      rcases List.mem_cons.mp hew with rfl | hew
      · rfl
      rcases List.mem_cons.mp hew with rfl | hew
      · rfl
      · simp at hew

/-- C5: during a reload build, the Shutdown Sequencer runs on the old
generation only after all `n` new workers have been cloned, migrated
(for indices with an old-generation counterpart) and bound: on success
the trace splits at the single `shutdownOldGen` marker, with every
clone/migrate/bind event before it; if any clone or bind step fails, the
final status is not `NC_OK` and the trace holds no shutdown marker and no
quit command at all. -/
theorem builder_shutdown_after_all_binds
    (env : BuildEnv) (parent : NcInstance) (wsIn ws : List NcInstance)
    (tr : List Ev) (st : Rstatus) (n : Nat)
    (hn : parent.ctx.worker_processes = n)
    (h : nc_setup_listener_for_workers env parent wsIn true = .ok (ws, tr, st)) :
    (st = .NC_OK →
      ∃ t₁ t₂, tr = t₁ ++ Ev.shutdownOldGen :: t₂ ∧ Ev.shutdownOldGen ∉ t₁ ∧
        (∀ i, i < n → Ev.cloneWorker i ∈ t₁ ∧ Ev.bindListener i ∈ t₁ ∧
          (i < wsIn.length → Ev.migrateCall i ∈ t₁))) ∧
    (st ≠ .NC_OK → Ev.shutdownOldGen ∉ tr ∧ ∀ ch, Ev.sendQuit ch ∉ tr) := by
  simp only [nc_setup_listener_for_workers, if_true] at h
  rw [hn] at h
  by_cases harr : env.arrayInitOk = false
  · rw [if_pos harr] at h
    simp only [Except.ok.injEq, Prod.mk.injEq] at h
    obtain ⟨-, h2, h3⟩ := h
    constructor
    · intro hok
      rw [← h3] at hok
      simp at hok
    · intro _
      rw [← h2]
      simp
  · rw [if_neg harr] at h
    cases hb : buildLoop env parent true wsIn.length (List.range n) [] wsIn [] with
    | error f => simp [hb] at h
    | ok quad =>
      obtain ⟨ws0, old0, tr0, st0⟩ := quad
      simp only [hb] at h
      by_cases hst0 : st0 = .NC_OK
      · rw [if_pos ⟨hst0, trivial⟩] at h
        cases hsd : nc_shutdown_workers old0 with
        | error f => simp [hsd] at h
        | ok trip =>
          obtain ⟨l2, str, st2⟩ := trip
          simp only [hsd, Except.ok.injEq, Prod.mk.injEq] at h
          obtain ⟨h1, h2, h3⟩ := h
          subst hst0
          have htr0 := buildLoop_ok_trace env parent true wsIn.length (List.range n)
            [] wsIn [] ws0 old0 tr0 hb
          obtain ⟨suf, hsuf, hkind, -⟩ := buildLoop_trace_shape env parent true
            wsIn.length (List.range n) [] wsIn [] ws0 old0 tr0 _ hb
          constructor
          · intro _
            refine ⟨tr0, str, by rw [← h2], ?_, ?_⟩
            · intro hmem
              rw [hsuf] at hmem
              simp only [List.nil_append] at hmem
              have := hkind _ hmem
              simp [isLoopEv] at this
            · intro i hi
              rw [htr0]
              simp only [List.nil_append]
              refine ⟨?_, ?_, ?_⟩
              · exact List.mem_flatMap.mpr ⟨i, List.mem_range.mpr hi, by simp [stepEvts]⟩
              · exact List.mem_flatMap.mpr ⟨i, List.mem_range.mpr hi, by simp [stepEvts]⟩
              · intro hiM
                exact List.mem_flatMap.mpr ⟨i, List.mem_range.mpr hi,
                  by simp [stepEvts, hiM]⟩
          · intro hne
            exact absurd h3.symm hne
      · rw [if_neg (fun hc => hst0 hc.1)] at h
        simp only [Except.ok.injEq, Prod.mk.injEq] at h
        obtain ⟨h1, h2, h3⟩ := h
        constructor
        · intro hok
          rw [← h3] at hok
          exact absurd hok hst0
        · intro _
          obtain ⟨suf, hsuf, hkind, -⟩ := buildLoop_trace_shape env parent true
            wsIn.length (List.range n) [] wsIn [] ws0 old0 tr0 st0 hb
          rw [← h2, hsuf]
          simp only [List.nil_append]
          constructor
          · intro hmem
            have := hkind _ hmem
            simp [isLoopEv] at this
          · intro ch hmem
            have := hkind _ hmem
            simp [isLoopEv] at this

-- Concrete reload scenario shared by the builder witnesses: one old
-- worker (pool `p1`, bound connection 5, channel 3, context 9), new
-- configuration with pool `q1` on the same address, all collaborators
-- succeeding.
def c5Env : BuildEnv :=
  ⟨true, fun _ => some (2, ⟨1, [⟨nmQ1, addrA, none⟩]⟩), fun _ ps => (.NC_OK, ps)⟩
def c5Parent : NcInstance := ⟨.master, ⟨1, []⟩, 1, none, none⟩
def c5OldWorker : NcInstance := ⟨.worker, ⟨1, [⟨nmP1, addrA, some 5⟩]⟩, 9, some 3, some 42⟩
def c5NewWs : List NcInstance := [⟨.worker, ⟨1, [⟨nmQ1, addrA, some 5⟩]⟩, 2, none, none⟩]
def c5Tr : List Ev :=
  [.cloneWorker 0, .migrateCall 0, .bindListener 0, .shutdownOldGen,
    .sendQuit 3, .deallocChan 3, .destroyCtx 9]

/-- C5 witness: a one-worker reload whose trace ends with the shutdown
block after the single clone/migrate/bind block. -/
theorem builder_shutdown_after_all_binds_witness :
    (Rstatus.NC_OK = Rstatus.NC_OK →
      ∃ t₁ t₂, c5Tr = t₁ ++ Ev.shutdownOldGen :: t₂ ∧ Ev.shutdownOldGen ∉ t₁ ∧
        (∀ i, i < 1 → Ev.cloneWorker i ∈ t₁ ∧ Ev.bindListener i ∈ t₁ ∧
          (i < 1 → Ev.migrateCall i ∈ t₁))) ∧
    (Rstatus.NC_OK ≠ Rstatus.NC_OK →
      Ev.shutdownOldGen ∉ c5Tr ∧ ∀ ch, Ev.sendQuit ch ∉ c5Tr) :=
  builder_shutdown_after_all_binds c5Env c5Parent [c5OldWorker] c5NewWs c5Tr .NC_OK 1
    rfl rfl

/-- C7: reloading from an old generation of size `M` into a configured
count `n` with `M < n` migrates only for indices `i < M` (no migration
source is consulted at or beyond `M`), and the shorter old generation by
itself never makes the build fail: when the array allocation, every clone
and every bind succeed, the builder returns `NC_OK`. -/
theorem reload_smaller_old_generation_safe
    (env : BuildEnv) (parent : NcInstance) (wsIn ws : List NcInstance)
    (tr : List Ev) (st : Rstatus) (n M : Nat)
    (hn : parent.ctx.worker_processes = n) (hM : wsIn.length = M) (hMn : M < n)
    (h : nc_setup_listener_for_workers env parent wsIn true = .ok (ws, tr, st)) :
    (∀ i, Ev.migrateCall i ∈ tr → i < M) ∧
      ((env.arrayInitOk = true ∧ (∀ i, i < n → (env.cloneCtx i).isSome) ∧
        (∀ i, i < n → ∀ ps, (env.bindCtx i ps).1 = .NC_OK)) → st = .NC_OK) := by
  simp only [nc_setup_listener_for_workers, if_true] at h
  rw [hn] at h
  by_cases harr : env.arrayInitOk = false
  · rw [if_pos harr] at h
    simp only [Except.ok.injEq, Prod.mk.injEq] at h
    obtain ⟨-, h2, h3⟩ := h
    constructor
    · intro i hmem
      rw [← h2] at hmem
      simp at hmem
    · rintro ⟨ha, -, -⟩
      rw [ha] at harr
      simp at harr
  · rw [if_neg harr] at h
    cases hb : buildLoop env parent true wsIn.length (List.range n) [] wsIn [] with
    | error f => simp [hb] at h
    | ok quad =>
      obtain ⟨ws0, old0, tr0, st0⟩ := quad
      simp only [hb] at h
      obtain ⟨suf, hsuf, hkind, hmig⟩ := buildLoop_trace_shape env parent true
        wsIn.length (List.range n) [] wsIn [] ws0 old0 tr0 st0 hb
      have hmig0 : ∀ i, Ev.migrateCall i ∈ tr0 → i < M := by
        intro i hmem
        rw [hsuf] at hmem
        simp only [List.nil_append] at hmem
        obtain ⟨-, hlt, -⟩ := hmig i hmem
        omega
      by_cases hst0 : st0 = .NC_OK
      · rw [if_pos ⟨hst0, trivial⟩] at h
        cases hsd : nc_shutdown_workers old0 with
        | error f => simp [hsd] at h
        | ok trip =>
          obtain ⟨l2, str, st2⟩ := trip
          simp only [hsd, Except.ok.injEq, Prod.mk.injEq] at h
          obtain ⟨h1, h2, h3⟩ := h
          constructor
          · intro i hmem
            rw [← h2] at hmem
            rcases List.mem_append.mp hmem with hmem | hmem
            · exact hmig0 i hmem
            · rcases List.mem_cons.mp hmem with hmem | hmem
              · exact absurd hmem (by simp)
              · have := shutdown_trace_kinds old0 l2 str st2 hsd _ hmem
                simp [isShutSeqEv] at this
          · exact fun _ => h3.symm
      · rw [if_neg (fun hc => hst0 hc.1)] at h
        simp only [Except.ok.injEq, Prod.mk.injEq] at h
        obtain ⟨h1, h2, h3⟩ := h
        constructor
        · intro i hmem
          rw [← h2] at hmem
          exact hmig0 i hmem
        · rintro ⟨-, hclone, hbind⟩
          have := buildLoop_all_ok env parent true wsIn.length (List.range n) [] wsIn []
            ws0 old0 tr0 st0 (fun i hi => hclone i (List.mem_range.mp hi))
            (fun i hi => hbind i (List.mem_range.mp hi)) hb
          exact absurd this hst0

-- Two-worker variant of the shared scenario: the old generation has only
-- one worker, the new configuration asks for two.
def c7Parent : NcInstance := ⟨.master, ⟨2, []⟩, 1, none, none⟩
def c7Ws : List NcInstance :=
  [⟨.worker, ⟨1, [⟨nmQ1, addrA, some 5⟩]⟩, 2, none, none⟩,
    ⟨.worker, ⟨1, [⟨nmQ1, addrA, none⟩]⟩, 2, none, none⟩]
def c7Tr : List Ev :=
  [.cloneWorker 0, .migrateCall 0, .bindListener 0, .cloneWorker 1, .bindListener 1,
    .shutdownOldGen, .sendQuit 3, .deallocChan 3, .destroyCtx 9]

/-- C7 witness: old generation of size 1 reloaded into a two-worker
configuration; only index 0 is migrated and the build returns `NC_OK`. -/
theorem reload_smaller_old_generation_safe_witness :
    (∀ i, Ev.migrateCall i ∈ c7Tr → i < 1) ∧
      ((c5Env.arrayInitOk = true ∧ (∀ i, i < 2 → (c5Env.cloneCtx i).isSome) ∧
        (∀ i, i < 2 → ∀ ps, (c5Env.bindCtx i ps).1 = .NC_OK)) →
        Rstatus.NC_OK = .NC_OK) :=
  reload_smaller_old_generation_safe c5Env c7Parent [c5OldWorker] c7Ws c7Tr .NC_OK 2 1
    rfl rfl (by omega) rfl

/-- A reload build whose bind step at index `k` fails (all earlier steps
succeeding) returns exactly that failing status, and its trace contains
neither the shutdown marker nor any quit command. -/
theorem setup_fail_bind (env : BuildEnv) (parent : NcInstance) (wsIn ws : List NcInstance)
    (tr : List Ev) (st s : Rstatus) (k n : Nat)
    (hn : parent.ctx.worker_processes = n) (hk : k < n)
    (harr : env.arrayInitOk = true)
    (hclone : ∀ i, i ≤ k → (env.cloneCtx i).isSome)
    (hbindOK : ∀ i, i < k → ∀ ps, (env.bindCtx i ps).1 = .NC_OK)
    (hbindK : ∀ ps, (env.bindCtx k ps).1 = s)
    (hs : s ≠ .NC_OK)
    (h : nc_setup_listener_for_workers env parent wsIn true = .ok (ws, tr, st)) :
    st = s ∧ Ev.shutdownOldGen ∉ tr ∧ ∀ ch, Ev.sendQuit ch ∉ tr := by
  simp only [nc_setup_listener_for_workers, if_true] at h
  rw [hn] at h
  rw [if_neg (by simp [harr])] at h
  cases hb : buildLoop env parent true wsIn.length (List.range n) [] wsIn [] with
  | error f => simp [hb] at h
  | ok quad =>
    obtain ⟨ws0, old0, tr0, st0⟩ := quad
    simp only [hb] at h
    have hst0 : st0 = s := by
      have hb' := hb
      rw [range_split n k hk] at hb'
      exact buildLoop_fail_bind env parent true wsIn.length (List.range k) k
        (List.range' (k + 1) (n - k - 1)) [] wsIn [] ws0 old0 tr0 st0 s
        (fun i hi => hclone i (by have := List.mem_range.mp hi; omega))
        (fun i hi => hbindOK i (List.mem_range.mp hi))
        (hclone k (Nat.le_refl k)) hbindK hs hb'
    rw [if_neg (fun hc => hs (hst0 ▸ hc.1))] at h
    simp only [Except.ok.injEq, Prod.mk.injEq] at h
    obtain ⟨h1, h2, h3⟩ := h
    obtain ⟨suf, hsuf, hkind, -⟩ := buildLoop_trace_shape env parent true wsIn.length
      (List.range n) [] wsIn [] ws0 old0 tr0 st0 hb
    refine ⟨by rw [← h3, hst0], ?_, ?_⟩
    · rw [← h2, hsuf]
      simp only [List.nil_append]
      intro hmem
      have := hkind _ hmem
      simp [isLoopEv] at this
    · intro ch
      rw [← h2, hsuf]
      simp only [List.nil_append]
      intro hmem
      have := hkind _ hmem
      simp [isLoopEv] at this

/-- C2: if a binding step fails while building a reload generation, the
builder returns that failure status (the generation is rejected as a
whole), the master keeps its previous Context (`parent` unchanged),
`pm_respawn` stays clear - the partial generation is not spawned in this
pass, which proceeds to its signal wait - and the old generation is not
handed to the Shutdown Sequencer (no shutdown marker, no quit command in
the trace). -/
theorem reload_bind_failure_all_or_nothing
    (env : PassEnv) (m : MState) (k n : Nat) (s : Rstatus) (cid : Nat) (cx : Ctx)
    (out : PassOutcome × List Ev)
    (hn : cx.worker_processes = n) (hk : k < n)
    (hcc : env.ctxCreate = some (cid, cx))
    (hreload : m.pm_reload = true) (hresp : m.pm_respawn = false)
    (harr : env.build.arrayInitOk = true)
    (hclone : ∀ i, i ≤ k → (env.build.cloneCtx i).isSome)
    (hbindOK : ∀ i, i < k → ∀ ps, (env.build.bindCtx i ps).1 = .NC_OK)
    (hbindK : ∀ ps, (env.build.bindCtx k ps).1 = s)
    (hs : s ≠ .NC_OK)
    (hrun : masterPass env m = .ok out) :
    ∃ ws0 tr0,
      nc_setup_listener_for_workers env.build { m.parent with ctx := cx, ctxId := cid }
        m.workers true = .ok (ws0, tr0, s) ∧
      out = (.waited { m with pm_reload := false, workers := ws0 }, tr0) ∧
      Ev.shutdownOldGen ∉ tr0 ∧ ∀ ch, Ev.sendQuit ch ∉ tr0 := by
  unfold masterPass at hrun
  rw [if_pos hreload] at hrun
  simp only [hcc] at hrun
  cases hsetup : nc_setup_listener_for_workers env.build
      { m.parent with ctx := cx, ctxId := cid } m.workers true with
  | error f => simp [hsetup] at hrun
  | ok trip =>
    obtain ⟨ws0, tr0, st0⟩ := trip
    simp only [hsetup] at hrun
    obtain ⟨hst0, hnoshut, hnoquit⟩ := setup_fail_bind env.build
      { m.parent with ctx := cx, ctxId := cid } m.workers ws0 tr0 st0 s k n hn hk harr
      hclone hbindOK hbindK hs hsetup
    rw [hst0] at hsetup
    rw [if_neg (fun hc => hs (hst0 ▸ hc))] at hrun
    unfold respawnCheck at hrun
    rw [if_neg (by simp [hresp])] at hrun
    simp only [Except.ok.injEq] at hrun
    refine ⟨ws0, tr0, by rw [hst0], ?_, hnoshut, hnoquit⟩
    exact hrun.symm

-- Concrete failing-reload scenario for the C2 witness: bind always fails
-- with NC_ERROR; everything else succeeds.
def c2Build : BuildEnv :=
  ⟨true, fun _ => some (2, ⟨1, [⟨nmQ1, addrA, none⟩]⟩), fun _ ps => (.NC_ERROR, ps)⟩
def c2Env : PassEnv := ⟨some (7, ⟨1, []⟩), c2Build, ⟨fun _ => some 0, fun _ => some 0⟩⟩
def c2M : MState := ⟨⟨.master, ⟨1, []⟩, 1, none, none⟩, [c5OldWorker], true, false⟩
def c2Out : PassOutcome × List Ev :=
  (.waited ⟨⟨.master, ⟨1, []⟩, 1, none, none⟩,
    [⟨.worker, ⟨1, [⟨nmQ1, addrA, some 5⟩]⟩, 2, none, none⟩], false, false⟩,
    [.cloneWorker 0, .migrateCall 0])

/-- C2 witness: a one-pool reload whose bind fails; the master pass ends
in the signal wait with the old context (id 1) still installed and no
worker respawn scheduled. -/
theorem reload_bind_failure_all_or_nothing_witness :
    ∃ ws0 tr0,
      nc_setup_listener_for_workers c2Build
        { c2M.parent with ctx := Ctx.mk 1 [], ctxId := 7 } c2M.workers true =
          .ok (ws0, tr0, .NC_ERROR) ∧
      c2Out = (.waited { c2M with pm_reload := false, workers := ws0 }, tr0) ∧
      Ev.shutdownOldGen ∉ tr0 ∧ ∀ ch, Ev.sendQuit ch ∉ tr0 :=
  reload_bind_failure_all_or_nothing c2Env c2M 0 1 .NC_ERROR 7 (Ctx.mk 1 []) c2Out
    rfl (by omega) rfl rfl rfl rfl (fun _ _ => rfl)
    (fun i hi => absurd hi (Nat.not_lt_zero i)) (fun _ => rfl) (by decide) rfl

/-- A channel-allocation failure at position `pre.length` stops the spawn
loop right there with `NC_ENOMEM`: earlier workers are spawned, the
failing worker keeps the null channel assignment, every later worker is
untouched. -/
theorem spawnLoop_alloc_abort (senv : SpawnEnv) (pre : List NcInstance) :
    ∀ (i0 : Nat) (w : NcInstance) (post : List NcInstance),
      (∀ q, q < pre.length →
        (senv.allocChan (i0 + q)).isSome ∧ (senv.forkPid (i0 + q)).isSome) →
      senv.allocChan (i0 + pre.length) = none →
      ∃ pre', pre'.length = pre.length ∧
        spawnLoop senv i0 (pre ++ w :: post) =
          (pre' ++ { w with chan := none } :: post, .NC_ENOMEM) := by
  induction pre with
  | nil =>
    intro i0 w post _ halloc
    refine ⟨[], rfl, ?_⟩
    have halloc' : senv.allocChan i0 = none := by simpa using halloc
    simp [spawnLoop, halloc']
  | cons p pre ih =>
    intro i0 w post hall halloc
    have h0 := hall 0 (by simp)
    rw [Nat.add_zero] at h0
    obtain ⟨ch, hch⟩ := Option.isSome_iff_exists.mp h0.1
    obtain ⟨pid, hpid⟩ := Option.isSome_iff_exists.mp h0.2
    have hall' : ∀ q, q < pre.length →
        (senv.allocChan (i0 + 1 + q)).isSome ∧ (senv.forkPid (i0 + 1 + q)).isSome := by
      intro q hq
      have hx := hall (q + 1) (by simp [hq])
      rw [show i0 + (q + 1) = i0 + 1 + q by omega] at hx
      exact hx
    have halloc' : senv.allocChan (i0 + 1 + pre.length) = none := by
      rw [show i0 + 1 + pre.length = i0 + (p :: pre).length by simp only [List.length_cons]; omega]
      exact halloc
    obtain ⟨pre', hlen, hrec⟩ := ih (i0 + 1) w post hall' halloc'
    refine ⟨{ p with chan := some ch, pid := some pid } :: pre', by simp [hlen], ?_⟩
    simp [spawnLoop, hch, hpid, hrec]

/-- A fork failure at position `pre.length` stops the spawn loop right
there with `NC_ERROR`: the failing worker keeps its freshly assigned
channel but no pid, and every later worker is untouched. -/
theorem spawnLoop_fork_abort (senv : SpawnEnv) (pre : List NcInstance) :
    ∀ (i0 : Nat) (w : NcInstance) (post : List NcInstance) (ch : Nat),
      (∀ q, q < pre.length →
        (senv.allocChan (i0 + q)).isSome ∧ (senv.forkPid (i0 + q)).isSome) →
      senv.allocChan (i0 + pre.length) = some ch →
      senv.forkPid (i0 + pre.length) = none →
      ∃ pre', pre'.length = pre.length ∧
        spawnLoop senv i0 (pre ++ w :: post) =
          (pre' ++ { w with chan := some ch } :: post, .NC_ERROR) := by
  induction pre with
  | nil =>
    intro i0 w post ch _ halloc hfork
    refine ⟨[], rfl, ?_⟩
    have halloc' : senv.allocChan i0 = some ch := by simpa using halloc
    have hfork' : senv.forkPid i0 = none := by simpa using hfork
    simp [spawnLoop, halloc', hfork']
  | cons p pre ih =>
    intro i0 w post ch hall halloc hfork
    have h0 := hall 0 (by simp)
    rw [Nat.add_zero] at h0
    obtain ⟨ch0, hch⟩ := Option.isSome_iff_exists.mp h0.1
    obtain ⟨pid, hpid⟩ := Option.isSome_iff_exists.mp h0.2
    have hall' : ∀ q, q < pre.length →
        (senv.allocChan (i0 + 1 + q)).isSome ∧ (senv.forkPid (i0 + 1 + q)).isSome := by
      intro q hq
      have hx := hall (q + 1) (by simp [hq])
      rw [show i0 + (q + 1) = i0 + 1 + q by omega] at hx
      exact hx
    have hsh : i0 + 1 + pre.length = i0 + (p :: pre).length := by simp only [List.length_cons]; omega
    obtain ⟨pre', hlen, hrec⟩ := ih (i0 + 1) w post ch hall'
      (by rw [hsh]; exact halloc) (by rw [hsh]; exact hfork)
    refine ⟨{ p with chan := some ch0, pid := some pid } :: pre', by simp [hlen], ?_⟩
    simp [spawnLoop, hch, hpid, hrec]

/-- C8: a channel-allocation failure or a fork failure aborts the spawn
pass at the failing worker (later workers untouched, conjuncts 3 and 4),
and when the respawn block's spawn call fails the master pass `break`s
with that status instead of reaching its signal wait (conjunct 1), which
terminates the whole master loop with that status regardless of any
further signal rounds (conjunct 2). -/
theorem spawn_failure_terminates_master
    (env : PassEnv) (m : MState) (ws' : List NcInstance) (st : Rstatus)
    (hreload : m.pm_reload = false) (hresp : m.pm_respawn = true)
    (hspawn : nc_spawn_workers env.spawn m.workers = .ok (ws', st))
    (hst : st ≠ .NC_OK) :
    masterPass env m =
        .ok (.broke { m with pm_respawn := false, workers := ws' } st, []) ∧
      (∀ (rs : List RoundEnv) (r : RoundEnv), r.pass = env →
        masterLoop (r :: rs) m =
          .ok (some st, { m with pm_respawn := false, workers := ws' })) ∧
      (∀ (senv : SpawnEnv) (pre : List NcInstance) (w : NcInstance)
        (post : List NcInstance),
        (∀ q, q < pre.length → (senv.allocChan q).isSome ∧ (senv.forkPid q).isSome) →
        senv.allocChan pre.length = none →
        ∃ pre', pre'.length = pre.length ∧
          spawnLoop senv 0 (pre ++ w :: post) =
            (pre' ++ { w with chan := none } :: post, .NC_ENOMEM)) ∧
      (∀ (senv : SpawnEnv) (pre : List NcInstance) (w : NcInstance)
        (post : List NcInstance) (ch : Nat),
        (∀ q, q < pre.length → (senv.allocChan q).isSome ∧ (senv.forkPid q).isSome) →
        senv.allocChan pre.length = some ch →
        senv.forkPid pre.length = none →
        ∃ pre', pre'.length = pre.length ∧
          spawnLoop senv 0 (pre ++ w :: post) =
            (pre' ++ { w with chan := some ch } :: post, .NC_ERROR)) := by
  have hmp : masterPass env m =
      .ok (.broke { m with pm_respawn := false, workers := ws' } st, []) := by
    unfold masterPass
    rw [if_neg (by simp [hreload])]
    unfold respawnCheck
    rw [if_pos hresp]
    simp only [hspawn]
    rw [if_neg hst]
  refine ⟨hmp, ?_, ?_, ?_⟩
  · intro rs r hr
    simp only [masterLoop, hr, hmp]
  · intro senv pre w post hall halloc
    exact spawnLoop_alloc_abort senv pre 0 w post (by simpa using hall) (by simpa using halloc)
  · intro senv pre w post ch hall halloc hfork
    exact spawnLoop_fork_abort senv pre 0 w post ch (by simpa using hall)
      (by simpa using halloc) (by simpa using hfork)

-- Concrete failing-spawn scenario for the C8 witness: channel allocation
-- always fails.
def c8Env : PassEnv := ⟨none, c2Build, ⟨fun _ => none, fun _ => none⟩⟩
def c8M : MState := ⟨⟨.master, ⟨1, []⟩, 1, none, none⟩, [c5OldWorker], false, true⟩
def c8Ws : List NcInstance := [⟨.worker, ⟨1, [⟨nmP1, addrA, some 5⟩]⟩, 9, none, some 42⟩]

/-- C8 witness: channel allocation fails for the only worker; the pass
breaks with `NC_ENOMEM` and the loop terminates with it. -/
theorem spawn_failure_terminates_master_witness :
    masterPass c8Env c8M =
        .ok (.broke { c8M with pm_respawn := false, workers := c8Ws } .NC_ENOMEM, []) ∧
      (∀ (rs : List RoundEnv) (r : RoundEnv), r.pass = c8Env →
        masterLoop (r :: rs) c8M =
          .ok (some .NC_ENOMEM, { c8M with pm_respawn := false, workers := c8Ws })) ∧
      (∀ (senv : SpawnEnv) (pre : List NcInstance) (w : NcInstance)
        (post : List NcInstance),
        (∀ q, q < pre.length → (senv.allocChan q).isSome ∧ (senv.forkPid q).isSome) →
        senv.allocChan pre.length = none →
        ∃ pre', pre'.length = pre.length ∧
          spawnLoop senv 0 (pre ++ w :: post) =
            (pre' ++ { w with chan := none } :: post, .NC_ENOMEM)) ∧
      (∀ (senv : SpawnEnv) (pre : List NcInstance) (w : NcInstance)
        (post : List NcInstance) (ch : Nat),
        (∀ q, q < pre.length → (senv.allocChan q).isSome ∧ (senv.forkPid q).isSome) →
        senv.allocChan pre.length = some ch →
        senv.forkPid pre.length = none →
        ∃ pre', pre'.length = pre.length ∧
          spawnLoop senv 0 (pre ++ w :: post) =
            (pre' ++ { w with chan := some ch } :: post, .NC_ERROR)) :=
  spawn_failure_terminates_master c8Env c8M c8Ws .NC_ENOMEM rfl rfl rfl (by decide)

/-- C9 (amended): whenever the Socket Migrator returns at all, it returns
`NC_OK` - name changes and destination-collision skips only log - and
the Generation Builder ignores the Migrator's status, so no status of a
completed migration can cause a generation build to be rejected: with the
array allocation, clones and binds succeeding, a completing build returns
`NC_OK` regardless of what migration did. -/
theorem migrate_status_ok_and_ignored :
    (∀ (dst src : List ServerPool) (ow : List (Nat × Nat)) (out : MigOut),
      nc_migrate_proxies dst src ow = .ok out → out.status = .NC_OK) ∧
    (∀ (env : BuildEnv) (parent : NcInstance) (wsIn ws : List NcInstance) (tr : List Ev)
      (st : Rstatus) (reloading : Bool),
      env.arrayInitOk = true →
      (∀ i, i < parent.ctx.worker_processes → (env.cloneCtx i).isSome) →
      (∀ i, i < parent.ctx.worker_processes → ∀ ps, (env.bindCtx i ps).1 = .NC_OK) →
      nc_setup_listener_for_workers env parent wsIn reloading = .ok (ws, tr, st) →
      st = .NC_OK) := by
  constructor
  · intro dst src ow out h
    unfold nc_migrate_proxies at h
    by_cases h1 : src.length = 0
    · rw [if_pos h1] at h
      simp at h
    · rw [if_neg h1] at h
      by_cases h2 : dst.length = 0
      · rw [if_pos h2] at h
        simp at h
      · rw [if_neg h2] at h
        cases ho : outerScan src dst ow with
        | error f => simp [ho] at h
        | ok trip =>
          obtain ⟨a, b, c⟩ := trip
          simp only [ho] at h
          cases h
          rfl
  · intro env parent wsIn ws tr st reloading harr hclone hbind h
    simp only [nc_setup_listener_for_workers] at h
    rw [if_neg (by simp [harr])] at h
    cases hb : buildLoop env parent reloading (if reloading then wsIn else []).length
        (List.range parent.ctx.worker_processes) [] (if reloading then wsIn else []) [] with
    | error f => simp [hb] at h
    | ok quad =>
      obtain ⟨ws0, old0, tr0, st0⟩ := quad
      simp only [hb] at h
      have hst0 := buildLoop_all_ok env parent reloading
        (if reloading then wsIn else []).length (List.range parent.ctx.worker_processes)
        [] (if reloading then wsIn else []) [] ws0 old0 tr0 st0
        (fun i hi => hclone i (List.mem_range.mp hi))
        (fun i hi => hbind i (List.mem_range.mp hi)) hb
      by_cases hcond : st0 = .NC_OK ∧ reloading = true
      · rw [if_pos hcond] at h
        cases hsd : nc_shutdown_workers old0 with
        | error f => simp [hsd] at h
        | ok trip =>
          obtain ⟨l2, str, st2⟩ := trip
          simp only [hsd, Except.ok.injEq, Prod.mk.injEq] at h
          exact h.2.2.symm
      · rw [if_neg hcond] at h
        simp only [Except.ok.injEq, Prod.mk.injEq] at h
        rw [← h.2.2]
        exact hst0

/-- C9 counterexample: the claim promises `NC_OK` for EVERY input, but on
a source pool carrying no connection that matches an unconnected
destination pool, the Migrator never returns - line 321 copies the
`NULL` source reference and line 322 writes through it. -/
theorem migrate_status_ok_cex :
    nc_migrate_proxies [⟨nmQ1, addrA, none⟩] [⟨nmP1, addrA, none⟩] [] =
      .error .nullDeref := rfl

/-- C9 witness: a completed migration returns `NC_OK`, and the fully
successful one-worker reload build returns `NC_OK`. -/
theorem migrate_status_ok_and_ignored_witness :
    (MigOut.mk [⟨nmQ1, addrA, some 5⟩] [⟨nmP1, addrA, none⟩] [(5, 0)] .NC_OK).status =
        .NC_OK ∧
      Rstatus.NC_OK = Rstatus.NC_OK :=
  ⟨migrate_status_ok_and_ignored.1 [⟨nmQ1, addrA, none⟩] [⟨nmP1, addrA, some 5⟩] []
      (MigOut.mk [⟨nmQ1, addrA, some 5⟩] [⟨nmP1, addrA, none⟩] [(5, 0)] .NC_OK) rfl,
    migrate_status_ok_and_ignored.2 c5Env c5Parent [c5OldWorker] c5NewWs c5Tr .NC_OK true
      rfl (fun _ _ => rfl) (fun _ _ _ => rfl) rfl⟩

